import Mathlib

/-!
Verification of the graph analysis and layout engine of the Graph-Visualiser
repository.  The definitions below are shallow embeddings of the JavaScript
source (src/script.js, src/unnamed/part_000, src/unnamed/part_001); machine
floats are modelled by exact rationals or reals, JS arrays by lists, and the
recursive depth-first searches by fuel-indexed recursion (the fuel used at
every call site is provably sufficient, so the embedding agrees with the
source on every input).
-/

/- The kernel-level evaluation of concrete rational computations below
needs the arithmetic on `Rat` to unfold; these core definitions are only
marked irreducible for elaboration performance. -/
set_option allowUnsafeReducibility true in
attribute [semireducible] Rat.add Rat.mul Rat.inv Rat.sub

namespace GraphViz

/-- Adjacency structure: node id to ordered neighbour list, as built by the
JS code with `adj[u].push(v)` (append at the end). -/
abbrev Adj := Nat → List Nat

/-- One `adj[u].push(v)` step. -/
def addEdge (a : Adj) (u v : Nat) : Adj :=
  fun x => if x = u then a u ++ [v] else a x

/-- Undirected adjacency, as built in `findBridges`
(src/unnamed/part_001 lines 172-178): each edge contributes
`adj[from].push(to); adj[to].push(from)`, in input order. -/
def undirAdj (edges : List (Nat × Nat)) : Adj :=
  edges.foldl (fun a e => addEdge (addEdge a e.1 e.2) e.2 e.1) (fun _ => [])

/-- Forward adjacency for the directed graph, as built in `findSCCs`
(src/unnamed/part_001 lines 219-226): `adj[from].push(to)`. -/
def dirAdj (edges : List (Nat × Nat)) : Adj :=
  edges.foldl (fun a e => addEdge a e.1 e.2) (fun _ => [])

/-- Reverse adjacency for the directed graph, as built in `findSCCs`:
`revAdj[to].push(from)`. -/
def revAdjL (edges : List (Nat × Nat)) : Adj :=
  edges.foldl (fun a e => addEdge a e.2 e.1) (fun _ => [])

/-- State of the first Kosaraju pass (src/unnamed/part_001 lines 228-246):
the visited set and the finishing-time stack.  The stack is stored
top-first, so the JS `stack.push(v)` is `v :: stack` and `stack.pop()`
takes the head. -/
structure K1 where
  vis : Finset Nat
  stack : List Nat
deriving DecidableEq

/-- `dfs1` of `findSCCs`: mark `v`, loop over the forward neighbours
recursing on the unvisited ones, then push `v` on the finishing stack.
The `foldl` is the JS `for (let u of adj[v])` loop.  `fuel` bounds the
recursion depth; every call made by the embedding uses enough fuel. -/
def dfs1 (adj : Adj) : Nat → Nat → K1 → K1
  | 0, _, s => s
  | fuel + 1, v, s =>
    let s2 := (adj v).foldl
      (fun s u => if u ∈ s.vis then s else dfs1 adj fuel u s)
      ⟨insert v s.vis, s.stack⟩
    ⟨s2.vis, v :: s2.stack⟩

/-- State of the second Kosaraju pass: visited set and the component
being collected (`component.push(v)` appends at the end). -/
structure K2 where
  vis : Finset Nat
  comp : List Nat
deriving DecidableEq

/-- `dfs2` of `findSCCs` (src/unnamed/part_001 lines 252-260): mark `v`,
append it to the current component, loop over the reverse neighbours
recursing on the unvisited ones. -/
def dfs2 (radj : Adj) : Nat → Nat → K2 → K2
  | 0, _, s => s
  | fuel + 1, v, s =>
    (radj v).foldl
      (fun s u => if u ∈ s.vis then s else dfs2 radj fuel u s)
      ⟨insert v s.vis, s.comp ++ [v]⟩

/-- The `while (stack.length > 0)` loop of `findSCCs`
(src/unnamed/part_001 lines 262-269): pop nodes from the finishing
stack; each unvisited one seeds a reverse DFS collecting one component,
appended to the component list. -/
def sccLoop (radj : Adj) (fuel : Nat) :
    List Nat → Finset Nat → List (List Nat) → Finset Nat × List (List Nat)
  | [], vis, acc => (vis, acc)
  | v :: rest, vis, acc =>
    if v ∈ vis then sccLoop radj fuel rest vis acc
    else
      let s := dfs2 radj fuel v ⟨vis, []⟩
      sccLoop radj fuel rest s.vis (acc ++ [s.comp])

/-- `findSCCs` (src/unnamed/part_001 lines 217-273, src/script.js lines
258-309): Kosaraju two-pass DFS.  `n` is `this.nodes.length`; node ids
are `1..n`.  The fuel `n + 1` strictly exceeds the recursion depth, which
is bounded by the number of distinct newly visited nodes. -/
def findSCCs (n : Nat) (edges : List (Nat × Nat)) : List (List Nat) :=
  let adj := dirAdj edges
  let radj := revAdjL edges
  let p1 := (List.range' 1 n).foldl
    (fun s i => if i ∈ s.vis then s else dfs1 adj (n + 1) i s) ⟨∅, []⟩
  (sccLoop radj (n + 1) p1.stack ∅ []).2

/-- State of the bridge-finding DFS (src/unnamed/part_001 lines 180-206):
visited set, discovery times, low-link values, parents (`-1` when unset,
as in the JS arrays), the time counter, and the collected bridge list. -/
structure BState where
  vis : Finset Nat
  disc : Nat → Int
  low : Nat → Int
  par : Nat → Int
  time : Int
  bridges : List (Nat × Nat)

/-- `bridgeUtil` (src/unnamed/part_001 lines 187-206): mark `u`, set
`disc[u] = low[u] = ++time`, then loop over the neighbour list: for an
unvisited neighbour `v`, set `parent[v] = u`, recurse, update `low[u]`,
and record a bridge when `low[v] > disc[u]`; for a visited neighbour
other than `parent[u]`, update `low[u]` with `disc[v]`. -/
def bUtil (adj : Adj) : Nat → Nat → BState → BState
  | 0, _, s => s
  | fuel + 1, u, s =>
    let t := s.time + 1
    (adj u).foldl
      (fun s v =>
        if v ∈ s.vis then
          if (v : Int) ≠ s.par u then
            { s with low := fun x => if x = u then min (s.low u) (s.disc v) else s.low x }
          else s
        else
          let s2 := bUtil adj fuel v
            { s with par := fun x => if x = v then (u : Int) else s.par x }
          let s3 := { s2 with
            low := fun x => if x = u then min (s2.low u) (s2.low v) else s2.low x }
          if s2.low v > s2.disc u then { s3 with bridges := s3.bridges ++ [(u, v)] }
          else s3)
      { s with
        vis := insert u s.vis
        time := t
        disc := fun x => if x = u then t else s.disc x
        low := fun x => if x = u then t else s.low x }

/-- `findBridges` (src/unnamed/part_001 lines 170-214, src/script.js lines
214-255): DFS with discovery/low-link numbers from every unvisited node
`1..n` over the undirected adjacency. -/
def findBridges (n : Nat) (edges : List (Nat × Nat)) : List (Nat × Nat) :=
  let adj := undirAdj edges
  ((List.range' 1 n).foldl
    (fun s i => if i ∈ s.vis then s else bUtil adj (n + 1) i s)
    ⟨∅, fun _ => -1, fun _ => -1, fun _ => -1, 0, []⟩).bridges

/-- One-step adjacency of the undirected closure of the edge list, used to
state reachability claims: `u` and `v` are joined by some input edge in
either orientation. -/
def ustep (edges : List (Nat × Nat)) (u v : Nat) : Prop :=
  (u, v) ∈ edges ∨ (v, u) ∈ edges


/-- Result of the validation BFS of `validateTree`: a cycle was detected,
or the loop drained the queue having counted `count` dequeues.  `out`
marks fuel exhaustion, which provably never happens at the fuel used. -/
inductive BfsRes where
  | cycle : BfsRes
  | done : Nat → BfsRes
  | out : BfsRes
deriving DecidableEq

/-- The neighbour scan of one BFS iteration (src/unnamed/part_000 lines
30-37): mark-and-enqueue unvisited neighbours; meeting a visited
neighbour other than the current node's parent aborts with a cycle
(`none`).  `q` is the queue behind the current node; enqueuing appends. -/
def scanNbrs (v : Nat) (p : Int) :
    List Nat → Finset Nat → List (Nat × Int) → Option (Finset Nat × List (Nat × Int))
  | [], vis, q => some (vis, q)
  | w :: ws, vis, q =>
    if w ∈ vis then
      if (w : Int) = p then scanNbrs v p ws vis q else none
    else scanNbrs v p ws (insert w vis) (q ++ [(w, (v : Int))])

/-- The BFS loop of `validateTree` (src/unnamed/part_000 lines 26-38):
dequeue `[node, parent]` pairs, count them, and scan their neighbours.
The fuel strictly exceeds the number of iterations actually possible. -/
def bfsLoop (adj : Adj) : Nat → List (Nat × Int) → Finset Nat → Nat → BfsRes
  | 0, _, _, _ => .out
  | _ + 1, [], _, count => .done count
  | fuel + 1, (v, p) :: rest, vis, count =>
    match scanNbrs v p (adj v) vis rest with
    | none => .cycle
    | some (vis2, q2) => bfsLoop adj fuel q2 vis2 (count + 1)

/-- `validateTree` (src/unnamed/part_000 lines 5-42): root-range check,
maximum-node check (`maxNodes = 20`), edge-count check, per-edge range
check, then BFS from the root over the undirected closure detecting
cycles and finally comparing the visited count with `n`. -/
def validateTree (n : Nat) (edges : List (Nat × Nat)) (root : Nat) : String :=
  if root < 1 ∨ root > n then
    "Root must be between 1 and " ++ toString n
  else if n > 20 then
    "Number of nodes exceeds maximum limit of 20"
  else if edges.length ≠ n - 1 then
    "A tree with " ++ toString n ++ " nodes must have exactly " ++
      toString (n - 1) ++ " edges"
  else if edges.any (fun e => e.1 < 1 ∨ e.1 > n ∨ e.2 < 1 ∨ e.2 > n) then
    "Invalid node in edge"
  else
    match bfsLoop (undirAdj edges) (n + 1) [(root, -1)] {root} 0 with
    | .cycle => "Cycle detected in the graph"
    | .done count => if count ≠ n then "Not all nodes are reachable from the root" else ""
    | .out => "unreachable: fuel exhaustion (see bfsLoop_ne_out)"

/-- `calculateOptimalZoom` (src/unnamed/part_001 lines 91-97, src/script.js
lines 133-139): the step function of the node count. -/
def calculateOptimalZoom (nodeCount : Nat) : ℚ :=
  if nodeCount ≤ 10 then 1
  else if nodeCount ≤ 20 then 8 / 10
  else if nodeCount ≤ 30 then 6 / 10
  else if nodeCount ≤ 40 then 5 / 10
  else 4 / 10

end GraphViz

namespace GraphViz

/-- The whitespace characters recognised for trimming and splitting
(the ASCII part of the JS `\s` class and of `String.prototype.trim`). -/
def isWsChar (c : Char) : Bool :=
  c = ' ' ∨ c = '\t' ∨ c = '\n' ∨ c = '\r' ∨ c = '\x0b' ∨ c = '\x0c'

/-- JS `String.prototype.trim` on the character list. -/
def jsTrimL (l : List Char) : List Char :=
  ((l.dropWhile isWsChar).reverse.dropWhile isWsChar).reverse

/-- JS `String.prototype.split(sep)` for a one-character separator:
always returns at least one (possibly empty) piece. -/
def splitChar (sep : Char) : List Char → List (List Char)
  | [] => [[]]
  | c :: cs =>
    match splitChar sep cs with
    | [] => [[]]
    | h :: t => if c = sep then [] :: h :: t else (c :: h) :: t

/-- Worker for `jsSplitWs`: collect maximal runs of non-whitespace
characters (`cur` is the current run, reversed). -/
def wsFieldsAux : List Char → List Char → List (List Char)
  | [], cur => if cur = [] then [] else [cur.reverse]
  | c :: cs, cur =>
    if isWsChar c then
      if cur = [] then wsFieldsAux cs [] else cur.reverse :: wsFieldsAux cs []
    else wsFieldsAux cs (c :: cur)

/-- JS `split(/\s+/)` as applied by the source: it is only ever called on
trimmed strings, where it returns `[""]` for the empty string and the
maximal non-whitespace runs otherwise. -/
def jsSplitWs (l : List Char) : List (List Char) :=
  if l = [] then [[]] else wsFieldsAux l []

/-- Value of a list of decimal digits. -/
def digitsVal (l : List Char) : Nat :=
  l.foldl (fun a c => 10 * a + (c.toNat - 48)) 0

/-- Exponent part of a JS number literal (after the `e`/`E`):
an optionally signed non-empty digit string. -/
def jsExp (l : List Char) : Option Int :=
  match l with
  | [] => none
  | '+' :: r => if !r.isEmpty && r.all Char.isDigit then some (digitsVal r : Int) else none
  | '-' :: r => if !r.isEmpty && r.all Char.isDigit then some (-(digitsVal r : Int)) else none
  | r => if r.all Char.isDigit then some (digitsVal r : Int) else none

/-- Unsigned magnitude of a JS decimal number literal:
`digits [. digits] [exponent]` with at least one mantissa digit. -/
def jsMag (l : List Char) : Option ℚ :=
  let ip := l.takeWhile Char.isDigit
  let r1 := l.dropWhile Char.isDigit
  let fr : List Char × List Char :=
    match r1 with
    | '.' :: rest => (rest.takeWhile Char.isDigit, rest.dropWhile Char.isDigit)
    | _ => ([], r1)
  if ip = [] ∧ fr.1 = [] then none
  else
    let mant : ℚ := (digitsVal ip : ℚ) + (digitsVal fr.1 : ℚ) / ((10 : ℚ) ^ fr.1.length)
    match fr.2 with
    | [] => some mant
    | c :: rest =>
      if c = 'e' ∨ c = 'E' then (jsExp rest).map (fun k => mant * (10 : ℚ) ^ k)
      else none

/-- JS `Number(string)` restricted to finite decimal literals, the exact
values produced as rationals: trims, maps the empty string to `0`, and
parses an optionally signed decimal literal; `none` models `NaN`.
(The special forms `Infinity` and the hex/octal/binary prefixes of full
JS, irrelevant to every claim, are mapped to `NaN` here.) -/
def jsNumberL (l0 : List Char) : Option ℚ :=
  let l := jsTrimL l0
  if l = [] then some 0
  else
    match l with
    | '-' :: rest => (jsMag rest).map (fun q => -q)
    | '+' :: rest => jsMag rest
    | _ => jsMag l

/-- Leading digit run for `parseInt`. -/
def jsParseIntDigits (r : List Char) : Option Nat :=
  let d := r.takeWhile Char.isDigit
  if d = [] then none else some (digitsVal d)

/-- JS `parseInt(string)` in base 10: skip leading whitespace, optional
sign, then the maximal leading digit run, ignoring any trailing
characters; `none` models `NaN`.  (The `0x` hex prefix of full JS,
irrelevant to every claim, is read as `0` followed by junk here versus
hex in JS.) -/
def jsParseIntL (l0 : List Char) : Option Int :=
  match l0.dropWhile isWsChar with
  | '-' :: r => (jsParseIntDigits r).map (fun k => -(k : Int))
  | '+' :: r => (jsParseIntDigits r).map (fun k => (k : Int))
  | r => (jsParseIntDigits r).map (fun k => (k : Int))

/-- The error text thrown for a malformed edge token
(src/unnamed/part_001 line 145); `t` is the trimmed token. -/
def fmtMsg (t : List Char) : String :=
  "Invalid edge format: \"" ++ String.mk t ++ "\""

/-- One token of the edge list (src/unnamed/part_001 lines 142-148):
trim, split on whitespace runs, convert both fields with `Number`;
anything but exactly two non-`NaN` fields throws the format error. -/
def parseToken (t : List Char) : Except String (ℚ × ℚ) :=
  let tt := jsTrimL t
  match jsSplitWs tt with
  | [a, b] =>
    match jsNumberL a, jsNumberL b with
    | some x, some y => .ok (x, y)
    | _, _ => .error (fmtMsg tt)
  | _ => .error (fmtMsg tt)

/-- The `edgesInput.split(',').map(...)` stage: parse every token,
propagating the first thrown format error. -/
def tokenizeL : List (List Char) → Except String (List (ℚ × ℚ))
  | [] => .ok []
  | t :: ts =>
    match parseToken t with
    | .error m => .error m
    | .ok p =>
      match tokenizeL ts with
      | .error m => .error m
      | .ok ps => .ok (p :: ps)

/-- Does the code accept this token?  Mirrors the test inside the `map`
of `parseInput`: exactly two whitespace-separated fields, both `Number`-
convertible. -/
def tokenNumericPair (t : List Char) : Bool :=
  match jsSplitWs (jsTrimL t) with
  | [a, b] => (jsNumberL a).isSome && (jsNumberL b).isSome
  | _ => false

/-- First token the code rejects, if any. -/
def firstBadToken : List (List Char) → Option (List Char)
  | [] => none
  | t :: ts => if tokenNumericPair t then firstBadToken ts else some t

/-- Modelled from the spec: an integer numeral (optional sign, digits). -/
def isIntLit (l0 : List Char) : Bool :=
  match jsTrimL l0 with
  | '-' :: r => !r.isEmpty && r.all Char.isDigit
  | '+' :: r => !r.isEmpty && r.all Char.isDigit
  | r => !r.isEmpty && r.all Char.isDigit

/-- Modelled from the spec: a token consisting of exactly two
whitespace-separated integers (the condition the spec says triggers the
format error when violated). -/
def specIntPair (t : List Char) : Bool :=
  match jsSplitWs (jsTrimL t) with
  | [a, b] => isIntLit a && isIntLit b
  | _ => false

/-- The range-error text thrown for an out-of-range edge
(src/unnamed/part_001 line 153).  JS renders the numbers as decimal
floats; exact rationals are rendered by `toString` here, which agrees on
integers. -/
def rangeMsg (u v : ℚ) (n : Nat) : String :=
  "Edge contains invalid node: " ++ toString u ++ " " ++ toString v ++
    ". Nodes must be between 1 and " ++ toString n ++ "."

/-- The edge validation loop (src/unnamed/part_001 lines 151-157): push
edges in order until one endpoint is out of `[1, nodeCount]`, in which
case the edges pushed so far remain and the range error is thrown. -/
def addEdgesLoop (n : Nat) : List (ℚ × ℚ) → List (ℚ × ℚ) × Option String
  | [] => ([], none)
  | (u, v) :: rest =>
    if u < 1 ∨ u > (n : ℚ) ∨ v < 1 ∨ v > (n : ℚ) then ([], some (rangeMsg u v n))
    else
      let r := addEdgesLoop n rest
      ((u, v) :: r.1, r.2)

/-- A parsed `Number` used as an array index: integral values address the
adjacency array, anything else addresses an absent property, making the
subsequent `.push` throw a `TypeError` in JS. -/
def ratToNode (q : ℚ) : Option Nat :=
  if q.den = 1 ∧ 0 ≤ q.num then some q.num.toNat else none

/-- Convert the parsed edge list to natural-number pairs; `none` when some
endpoint is not a natural number, in which case `findBridges`/`findSCCs`
would throw a `TypeError` on the adjacency build. -/
def intEdges : List (ℚ × ℚ) → Option (List (Nat × Nat))
  | [] => some []
  | (u, v) :: rest =>
    match ratToNode u, ratToNode v, intEdges rest with
    | some a, some b, some es => some ((a, b) :: es)
    | _, _, _ => none

/-- The node-count validation prefix of `visualizeGraph`
(src/unnamed/part_001 lines 588-611): `parseInt` the raw field, reject
`NaN` and non-positive values, then reject values above 50.  `none`
means the pipeline proceeds to build the graph. -/
def nodeCountValidation (nodesRaw : String) : Option String :=
  match jsParseIntL nodesRaw.data with
  | none => some "⚠️ Please enter a valid number of nodes (positive integer)."
  | some v =>
    if v ≤ 0 then some "⚠️ Please enter a valid number of nodes (positive integer)."
    else if v > 50 then some "⚠️ Please enter 50 or fewer nodes for optimal visualization."
    else none

end GraphViz

namespace GraphViz

/-- A laid-out node (src/unnamed/part_001 lines 127-132): id, position,
display radius.  Coordinates are modelled as exact reals. -/
structure NodeV where
  id : Nat
  x : ℝ
  y : ℝ
  radius : ℝ

/-- The inline circular layout of `parseInput` (src/unnamed/part_001
lines 110-133): nodes `1..nodeCount` on a circle of radius
`min(w/2, h/2) * 0.7` around the canvas centre, node `i + 1` at angle
`2π i / nodeCount`, every node with `baseRadius = 25`.  There is no
special case for a single node here. -/
noncomputable def layoutNodes (w h : ℝ) (nodeCount : Nat) : List NodeV :=
  (List.range nodeCount).map fun i =>
    { id := i + 1
      x := w / 2 + (min (w / 2) (h / 2) * (7 / 10)) * Real.cos (2 * Real.pi * i / nodeCount)
      y := h / 2 + (min (w / 2) (h / 2) * (7 / 10)) * Real.sin (2 * Real.pi * i / nodeCount)
      radius := 25 }

/-- `createCircularLayout` (src/unnamed/part_001 lines 276-305): the
helper that centres a single node and otherwise uses a density-derived
circle radius.  No caller of it exists in the source. -/
noncomputable def createCircularLayout (w h : ℝ) (nodeCount : Nat) : List NodeV :=
  if nodeCount = 1 then [{ id := 1, x := w / 2, y := h / 2, radius := 25 }]
  else
    (List.range' 1 nodeCount).map fun i =>
      let r := min (min w h * (4 / 10)) (max 150 ((nodeCount : ℝ) * 8))
      { id := i
        x := w / 2 + r * Real.cos (2 * Real.pi * ((i : ℝ) - 1) / nodeCount - Real.pi / 2)
        y := h / 2 + r * Real.sin (2 * Real.pi * ((i : ℝ) - 1) / nodeCount - Real.pi / 2)
        radius := 25 }

/-- The session state of a `GraphVisualizer` instance
(src/unnamed/part_001 lines 5-24): graph, analysis results, display
flags and view transform.  Positions are real, the remaining numeric
fields rational. -/
structure GVState where
  nodes : List NodeV
  edges : List (ℚ × ℚ)
  isDirected : Bool
  showLabels : Bool
  showBridges : Bool
  showSCC : Bool
  bridges : List (Nat × Nat)
  sccs : List (List Nat)
  zoom : ℚ
  offsetX : ℚ
  offsetY : ℚ

/-- The algorithm phase at the end of `parseInput` (src/unnamed/part_001
lines 160-167): run `findBridges` or `findSCCs` according to the
already-masked flags.  A non-integral edge endpoint makes the JS
adjacency build throw a `TypeError`, modelled as the error result. -/
def runAlgos (st : GVState) : GVState × Option String :=
  let n := st.nodes.length
  if st.showBridges then
    match intEdges st.edges with
    | some es => ({ st with bridges := findBridges n es }, none)
    | none => (st, some "TypeError")
  else if st.showSCC then
    match intEdges st.edges with
    | some es => ({ st with sccs := findSCCs n es }, none)
    | none => (st, some "TypeError")
  else (st, none)

/-- `parseInput` (src/unnamed/part_001 lines 100-167, src/script.js lines
152-211): set the flags, rebuild the node layout, reset zoom and pan to
the content-derived defaults, then tokenize and range-validate the edge
specification and finally run the requested analysis.  The second
component is the thrown error message, `none` on success; the first
component is the session state as the JS object leaves it, including the
partial mutations present when an error is thrown.  (src/script.js is
identical except that it does not reset `offsetY`, a field that is
nowhere assigned a nonzero value in that file.) -/
noncomputable def parseInput (st : GVState) (w h : ℝ) (nodeCount : Nat)
    (edgesInput : String) (directed showLabels showBridges showSCC : Bool) :
    GVState × Option String :=
  let st1 : GVState :=
    { st with
      isDirected := directed
      showLabels := showLabels
      showBridges := showBridges && !directed
      showSCC := showSCC && directed
      nodes := layoutNodes w h nodeCount
      edges := []
      bridges := []
      sccs := []
      zoom := calculateOptimalZoom nodeCount
      offsetX := 0
      offsetY := 0 }
  if jsTrimL edgesInput.data = [] then runAlgos st1
  else
    match tokenizeL (splitChar ',' edgesInput.data) with
    | .error m => (st1, some m)
    | .ok pairs =>
      match addEdgesLoop nodeCount pairs with
      | (es, some m) => ({ st1 with edges := es }, some m)
      | (es, none) => runAlgos { st1 with edges := es }

/-- `lineIntersectsCircle` (src/unnamed/part_001 lines 394-414): solve the
line/circle quadratic for the segment from `A` to `B` against the circle
around `C` enlarged by the 10-pixel buffer, and test whether either root
lies in `[0, 1]`.  A negative discriminant means no intersection. -/
noncomputable def lineIntersectsCircle (A B C : NodeV) : Prop :=
  let dx := B.x - A.x
  let dy := B.y - A.y
  let fx := A.x - C.x
  let fy := A.y - C.y
  let a := dx * dx + dy * dy
  let b := 2 * (fx * dx + fy * dy)
  let c := fx * fx + fy * fy - (C.radius + 10) * (C.radius + 10)
  let disc := b * b - 4 * a * c
  0 ≤ disc ∧
    ((0 ≤ (-b - Real.sqrt disc) / (2 * a) ∧ (-b - Real.sqrt disc) / (2 * a) ≤ 1) ∨
     (0 ≤ (-b + Real.sqrt disc) / (2 * a) ∧ (-b + Real.sqrt disc) / (2 * a) ≤ 1))

/-- `edgeIntersectsNodes` (src/unnamed/part_001 lines 380-391): some node
other than the two endpoints (compared by id) intersects the straight
segment; when it holds the edge is routed as a quadratic curve. -/
noncomputable def edgeIntersectsNodes (nodes : List NodeV) (A B : NodeV) : Prop :=
  ∃ C ∈ nodes, C.id ≠ A.id ∧ C.id ≠ B.id ∧ lineIntersectsCircle A B C

end GraphViz

namespace GraphViz

/-- The constructor state of `GraphVisualizer` (src/unnamed/part_001
lines 5-24): empty graph, default flags, unit zoom, zero pan. -/
def initState : GVState :=
  { nodes := [], edges := [], isDirected := false, showLabels := true,
    showBridges := false, showSCC := false, bridges := [], sccs := [],
    zoom := 1, offsetX := 0, offsetY := 0 }

/-- `runAlgos` never touches the layout, edge list, or view fields. -/
theorem runAlgos_fields (st : GVState) :
    (runAlgos st).1.zoom = st.zoom ∧ (runAlgos st).1.offsetX = st.offsetX ∧
    (runAlgos st).1.offsetY = st.offsetY ∧ (runAlgos st).1.nodes = st.nodes ∧
    (runAlgos st).1.edges = st.edges := by
  unfold runAlgos
  dsimp only
  split
  · split <;> exact ⟨rfl, rfl, rfl, rfl, rfl⟩
  · split
    · split <;> exact ⟨rfl, rfl, rfl, rfl, rfl⟩
    · exact ⟨rfl, rfl, rfl, rfl, rfl⟩

/-- When `runAlgos` reports an error it leaves the state unchanged. -/
theorem runAlgos_err (st : GVState) (m : String)
    (h : (runAlgos st).2 = some m) : (runAlgos st).1 = st := by
  unfold runAlgos at h ⊢
  dsimp only at h ⊢
  by_cases hb : st.showBridges
  · rcases hi : intEdges st.edges with _ | es <;> simp [hb, hi] at h ⊢
  · by_cases hs : st.showSCC
    · rcases hi : intEdges st.edges with _ | es <;> simp [hb, hs, hi] at h ⊢
    · simp [hb, hs] at h

end GraphViz

namespace GraphViz

/-- Claim C1 (code bug): on the accepted undirected multigraph with two
nodes and the duplicated edge "1 2, 1 2", `findBridges` reports `(1,2)`
as a bridge, yet the graph with one copy of that edge removed is still
connected (a single component), exactly as the full graph is: removing
the reported bridge does not increase the number of connected
components, contradicting the claimed bridge property.  The parent-by-id
back-edge test of `bridgeUtil` skips both adjacency entries of the
parallel edge. -/
theorem findBridges_parallel_edge_bug :
    findBridges 2 [(1, 2), (1, 2)] = [(1, 2)] ∧
    (∀ u ∈ Finset.Icc 1 2, ∀ v ∈ Finset.Icc 1 2,
      Relation.ReflTransGen (ustep [(1, 2), (1, 2)]) u v) ∧
    (∀ u ∈ Finset.Icc 1 2, ∀ v ∈ Finset.Icc 1 2,
      Relation.ReflTransGen (ustep [(1, 2)]) u v) := by
  refine ⟨by decide, ?_, ?_⟩ <;>
  · intro u hu v hv
    rw [Finset.mem_Icc] at hu hv
    obtain ⟨hu1, hu2⟩ := hu
    obtain ⟨hv1, hv2⟩ := hv
    interval_cases u <;> interval_cases v
    · exact Relation.ReflTransGen.refl
    · exact Relation.ReflTransGen.single (by unfold ustep; decide)
    · exact Relation.ReflTransGen.single (by unfold ustep; decide)
    · exact Relation.ReflTransGen.refl

end GraphViz

namespace GraphViz

/-- Every edge kept by the validation loop has both endpoints in
`[1, nodeCount]`. -/
theorem addEdgesLoop_sound (n : Nat) :
    ∀ pairs : List (ℚ × ℚ), ∀ e ∈ (addEdgesLoop n pairs).1,
      1 ≤ e.1 ∧ e.1 ≤ (n : ℚ) ∧ 1 ≤ e.2 ∧ e.2 ≤ (n : ℚ) := by
  intro pairs
  induction pairs with
  | nil => intro e he; simp [addEdgesLoop] at he
  | cons p rest ih =>
    intro e he
    obtain ⟨u, v⟩ := p
    rw [addEdgesLoop] at he
    split at he
    · simp at he
    · next hcond =>
      push_neg at hcond
      rcases List.mem_cons.mp he with h | h
      · subst h; exact ⟨hcond.1, hcond.2.1, hcond.2.2.1, hcond.2.2.2⟩
      · exact ih e h

/-- On every outcome, `parseInput` has rebuilt the node layout for the
new node count, reset the view transform to its content-derived default,
and kept only in-range edges of the new input. -/
theorem parse_always_fields (st : GVState) (w h : ℝ) (n : Nat) (s : String)
    (d sl sb sc : Bool) :
    (parseInput st w h n s d sl sb sc).1.nodes = layoutNodes w h n ∧
    (parseInput st w h n s d sl sb sc).1.zoom = calculateOptimalZoom n ∧
    (parseInput st w h n s d sl sb sc).1.offsetX = 0 ∧
    (parseInput st w h n s d sl sb sc).1.offsetY = 0 ∧
    ∀ e ∈ (parseInput st w h n s d sl sb sc).1.edges,
      1 ≤ e.1 ∧ e.1 ≤ (n : Rat) ∧ 1 ≤ e.2 ∧ e.2 ≤ (n : Rat) := by
  unfold parseInput
  dsimp only
  split
  · obtain ⟨h1, h2, h3, h4, h5⟩ := runAlgos_fields
      { st with
        isDirected := d, showLabels := sl, showBridges := sb && !d,
        showSCC := sc && d, nodes := layoutNodes w h n, edges := [],
        bridges := [], sccs := [], zoom := calculateOptimalZoom n,
        offsetX := 0, offsetY := 0 }
    refine ⟨h4.trans rfl, h1.trans rfl, h2.trans rfl, h3.trans rfl, ?_⟩
    rw [h5]
    intro e he
    simp at he
  · split
    · exact ⟨rfl, rfl, rfl, rfl, by intro e he; simp at he⟩
    · next pairs heq =>
      split
      · next es m heq2 =>
        refine ⟨rfl, rfl, rfl, rfl, ?_⟩
        intro e he
        dsimp only at he
        have := addEdgesLoop_sound n pairs e (by rw [heq2] at *; exact he)
        exact this
      · next es heq2 =>
        obtain ⟨h1, h2, h3, h4, h5⟩ := runAlgos_fields
          { st with
            isDirected := d, showLabels := sl, showBridges := sb && !d,
            showSCC := sc && d, nodes := layoutNodes w h n, edges := es,
            bridges := [], sccs := [], zoom := calculateOptimalZoom n,
            offsetX := 0, offsetY := 0 }
        refine ⟨h4.trans rfl, h1.trans rfl, h2.trans rfl, h3.trans rfl, ?_⟩
        rw [h5]
        intro e he
        dsimp only at he
        exact addEdgesLoop_sound n pairs e (by rw [heq2] at *; exact he)

end GraphViz

namespace GraphViz

/-- With a single node the inline layout of `parseInput` places it at
angle `0` on the layout circle: at `centerX + radius`, not at the
centre. -/
theorem layoutNodes_one (w h : ℝ) :
    layoutNodes w h 1 =
      [{ id := 1, x := w / 2 + min (w / 2) (h / 2) * (7 / 10), y := h / 2,
         radius := 25 }] := by
  unfold layoutNodes
  rw [show List.range 1 = [0] from rfl]
  simp only [List.map_cons, List.map_nil, Nat.cast_zero, mul_zero, zero_div,
    Real.cos_zero, Real.sin_zero, mul_one, List.cons.injEq, and_true,
    NodeV.mk.injEq]
  refine ⟨?_, ?_, ?_⟩ <;> ring_nf

end GraphViz

namespace GraphViz

/-- Claim C4 (counterexample): a successful parse of a single node on an
800 by 600 canvas places the node at `(610, 300)` — on the layout circle
at angle `0` — and not at the canvas centre `(400, 300)`. -/
theorem single_node_not_centered :
    (parseInput initState 800 600 1 "" false true false false).2 = none ∧
    (parseInput initState 800 600 1 "" false true false false).1.nodes =
      [{ id := 1, x := 610, y := 300, radius := 25 }] ∧
    (610 : ℝ) ≠ 800 / 2 := by
  refine ⟨rfl, ?_, by norm_num⟩
  have h := (parse_always_fields initState 800 600 1 "" false true false false).1
  rw [h, layoutNodes_one]
  norm_num

/-- Claim C4 (amended): a successful parse with `nodeCount = 1` places
the single node at `(centerX + 0.7 * min(centerX, centerY), centerY)`,
on the degenerate layout circle at angle `0`; only the uncalled
`createCircularLayout` helper would place it at the centre. -/
theorem parse_single_node_on_circle (st : GVState) (w h : ℝ) (s : String)
    (d sl sb sc : Bool)
    (_hok : (parseInput st w h 1 s d sl sb sc).2 = none) :
    (parseInput st w h 1 s d sl sb sc).1.nodes =
      [{ id := 1, x := w / 2 + min (w / 2) (h / 2) * (7 / 10), y := h / 2,
         radius := 25 }] ∧
    createCircularLayout w h 1 = [{ id := 1, x := w / 2, y := h / 2, radius := 25 }] :=
  ⟨(parse_always_fields st w h 1 s d sl sb sc).1.trans (layoutNodes_one w h),
   by unfold createCircularLayout; simp⟩

/-- Witness for `parse_single_node_on_circle` at a concrete successful
parse. -/
theorem parse_single_node_on_circle_witness :
    (parseInput initState 800 600 1 "" false true false false).1.nodes =
      [{ id := 1, x := 800 / 2 + min (800 / 2) (600 / 2) * (7 / 10), y := 600 / 2,
         radius := 25 }] ∧
    createCircularLayout 800 600 1 =
      [{ id := 1, x := 800 / 2, y := 600 / 2, radius := 25 }] :=
  parse_single_node_on_circle initState 800 600 "" false true false false rfl

end GraphViz

namespace GraphViz

/-- Claim C7: after every successful parse the view transform equals its
content-derived default: the zoom is the node-count step function with
the spec's step values, and both pan components are zero. -/
theorem parse_success_view_reset (st : GVState) (w h : ℝ) (n : Nat) (s : String)
    (d sl sb sc : Bool)
    (_hok : (parseInput st w h n s d sl sb sc).2 = none) :
    (parseInput st w h n s d sl sb sc).1.zoom = calculateOptimalZoom n ∧
    (parseInput st w h n s d sl sb sc).1.offsetX = 0 ∧
    (parseInput st w h n s d sl sb sc).1.offsetY = 0 ∧
    (n ≤ 10 → (parseInput st w h n s d sl sb sc).1.zoom = 1) ∧
    (10 < n → n ≤ 20 → (parseInput st w h n s d sl sb sc).1.zoom = 8 / 10) ∧
    (20 < n → n ≤ 30 → (parseInput st w h n s d sl sb sc).1.zoom = 6 / 10) ∧
    (30 < n → n ≤ 40 → (parseInput st w h n s d sl sb sc).1.zoom = 5 / 10) ∧
    (40 < n → (parseInput st w h n s d sl sb sc).1.zoom = 4 / 10) := by
  obtain ⟨-, hz, hx, hy, -⟩ := parse_always_fields st w h n s d sl sb sc
  refine ⟨hz, hx, hy, ?_, ?_, ?_, ?_, ?_⟩ <;> rw [hz] <;> unfold calculateOptimalZoom
  · intro h1; rw [if_pos h1]
  · intro h1 h2; rw [if_neg (by omega), if_pos h2]
  · intro h1 h2; rw [if_neg (by omega), if_neg (by omega), if_pos h2]
  · intro h1 h2; rw [if_neg (by omega), if_neg (by omega), if_neg (by omega), if_pos h2]
  · intro h1
    rw [if_neg (by omega), if_neg (by omega), if_neg (by omega), if_neg (by omega)]

/-- Witness for `parse_success_view_reset`: a successful parse of 15
nodes gets zoom `0.8` and zero pan. -/
theorem parse_success_view_reset_witness :
    (parseInput initState 800 600 15 "1 2" false true false false).1.zoom =
      calculateOptimalZoom 15 ∧
    (parseInput initState 800 600 15 "1 2" false true false false).1.offsetX = 0 ∧
    (parseInput initState 800 600 15 "1 2" false true false false).1.offsetY = 0 ∧
    (15 ≤ 10 → (parseInput initState 800 600 15 "1 2" false true false false).1.zoom = 1) ∧
    (10 < 15 → 15 ≤ 20 →
      (parseInput initState 800 600 15 "1 2" false true false false).1.zoom = 8 / 10) ∧
    (20 < 15 → 15 ≤ 30 →
      (parseInput initState 800 600 15 "1 2" false true false false).1.zoom = 6 / 10) ∧
    (30 < 15 → 15 ≤ 40 →
      (parseInput initState 800 600 15 "1 2" false true false false).1.zoom = 5 / 10) ∧
    (40 < 15 → (parseInput initState 800 600 15 "1 2" false true false false).1.zoom = 4 / 10) :=
  parse_success_view_reset initState 800 600 15 "1 2" false true false false rfl

end GraphViz

namespace GraphViz

/-- On a failed parse the bridge and SCC results are the cleared ones. -/
theorem parse_failure_cleared (st : GVState) (w h : ℝ) (n : Nat) (s : String)
    (d sl sb sc : Bool) (m : String)
    (hfail : (parseInput st w h n s d sl sb sc).2 = some m) :
    (parseInput st w h n s d sl sb sc).1.bridges = [] ∧
    (parseInput st w h n s d sl sb sc).1.sccs = [] := by
  unfold parseInput at hfail ⊢
  dsimp only at hfail ⊢
  split at hfail
  · next hemp => rw [if_pos hemp, runAlgos_err _ m hfail]; exact ⟨rfl, rfl⟩
  · next hemp =>
    rw [if_neg hemp]
    split at hfail
    · exact ⟨rfl, rfl⟩
    · split at hfail
      · exact ⟨rfl, rfl⟩
      · rw [runAlgos_err _ m hfail]; exact ⟨rfl, rfl⟩

/-- Claim C3 (amended): a failed parse does not restore the previous
session state; instead it leaves the partially rebuilt one: the node
list is relaid out for the new node count, the edge list holds only the
in-range edges of the new input accepted before the error (empty on a
format error), the bridge set and SCC partition are cleared, and the
zoom and pan are reset to the new content-derived defaults. -/
theorem parse_failure_state (st : GVState) (w h : ℝ) (n : Nat) (s : String)
    (d sl sb sc : Bool) (m : String)
    (hfail : (parseInput st w h n s d sl sb sc).2 = some m) :
    (parseInput st w h n s d sl sb sc).1.nodes = layoutNodes w h n ∧
    (parseInput st w h n s d sl sb sc).1.bridges = [] ∧
    (parseInput st w h n s d sl sb sc).1.sccs = [] ∧
    (parseInput st w h n s d sl sb sc).1.zoom = calculateOptimalZoom n ∧
    (parseInput st w h n s d sl sb sc).1.offsetX = 0 ∧
    (parseInput st w h n s d sl sb sc).1.offsetY = 0 ∧
    ∀ e ∈ (parseInput st w h n s d sl sb sc).1.edges,
      1 ≤ e.1 ∧ e.1 ≤ (n : ℚ) ∧ 1 ≤ e.2 ∧ e.2 ≤ (n : ℚ) := by
  obtain ⟨h1, h2, h3, h4, h5⟩ := parse_always_fields st w h n s d sl sb sc
  obtain ⟨h6, h7⟩ := parse_failure_cleared st w h n s d sl sb sc m hfail
  exact ⟨h1, h6, h7, h2, h3, h4, h5⟩

/-- A session state produced by a successful parse of the graph
`nodeCount = 1` with the self-loop edge list "1 1". -/
noncomputable def prevState : GVState :=
  (parseInput initState 800 600 1 "1 1" false true false false).1

/-- Claim C3 (counterexample): the state `prevState` holds the edge
`(1,1)`; a subsequent parse that fails on the malformed token "x"
leaves the edge list empty — the previously held edge list is not
restored, so the failed parse did mutate the session state. -/
theorem parse_failure_mutates :
    prevState.edges = [(1, 1)] ∧
    (parseInput prevState 800 600 2 "x" false true false false).2 =
      some "Invalid edge format: \"x\"" ∧
    (parseInput prevState 800 600 2 "x" false true false false).1.edges = [] ∧
    (parseInput prevState 800 600 2 "x" false true false false).1.edges ≠
      prevState.edges := by
  refine ⟨rfl, rfl, rfl, ?_⟩
  rw [show (parseInput prevState 800 600 2 "x" false true false false).1.edges = []
      from rfl,
    show prevState.edges = [(1, 1)] from rfl]
  simp

/-- Witness for `parse_failure_state` at a concrete failed parse. -/
theorem parse_failure_state_witness :
    (parseInput initState 800 600 2 "x" false true false false).1.nodes =
      layoutNodes 800 600 2 ∧
    (parseInput initState 800 600 2 "x" false true false false).1.bridges = [] ∧
    (parseInput initState 800 600 2 "x" false true false false).1.sccs = [] ∧
    (parseInput initState 800 600 2 "x" false true false false).1.zoom =
      calculateOptimalZoom 2 ∧
    (parseInput initState 800 600 2 "x" false true false false).1.offsetX = 0 ∧
    (parseInput initState 800 600 2 "x" false true false false).1.offsetY = 0 ∧
    ∀ e ∈ (parseInput initState 800 600 2 "x" false true false false).1.edges,
      1 ≤ e.1 ∧ e.1 ≤ (2 : ℚ) ∧ 1 ≤ e.2 ∧ e.2 ≤ (2 : ℚ) :=
  parse_failure_state initState 800 600 2 "x" false true false false
    "Invalid edge format: \"x\"" rfl

end GraphViz

namespace GraphViz

/-- Claim C6 (counterexample): the raw node-count input "3.7" does not
denote a positive integer, yet the pipeline accepts it — `parseInt`
truncates it to `3` and the validation passes. -/
theorem node_count_fractional_accepted :
    nodeCountValidation "3.7" = none ∧
    isIntLit "3.7".data = false ∧
    jsParseIntL "3.7".data = some 3 := by
  decide

/-- Claim C6 (amended): the pipeline rejects a raw node count with a
range error exactly when `parseInt` of the raw text is `NaN`,
non-positive, or above 50; a non-integer numeral such as "3.7" is
truncated by `parseInt` and accepted when its integer part is in
range. -/
theorem node_count_validation_iff (raw : String) :
    nodeCountValidation raw = none ↔
      ∃ v : Int, jsParseIntL raw.data = some v ∧ 0 < v ∧ v ≤ 50 := by
  unfold nodeCountValidation
  cases h : jsParseIntL raw.data with
  | none => simp
  | some v =>
    dsimp only
    by_cases h1 : v ≤ 0
    · rw [if_pos h1]
      simp only [Option.some.injEq]
      constructor
      · intro hc; cases hc
      · rintro ⟨w, hw, hpos, -⟩
        cases hw
        omega
    · rw [if_neg h1]
      by_cases h2 : v > 50
      · rw [if_pos h2]
        constructor
        · intro hc; cases hc
        · rintro ⟨w, hw, -, hle⟩
          cases hw
          omega
      · rw [if_neg h2]
        exact ⟨fun _ => ⟨v, rfl, by omega, by omega⟩, fun _ => rfl⟩

end GraphViz

namespace GraphViz

/-- A token is either rejected with the format error naming its trimmed
text, or parsed to a pair; the outcome is decided by
`tokenNumericPair`. -/
theorem parseToken_cases (t : List Char) :
    (tokenNumericPair t = false ∧ parseToken t = .error (fmtMsg (jsTrimL t))) ∨
    (tokenNumericPair t = true ∧ ∃ p, parseToken t = .ok p) := by
  unfold parseToken tokenNumericPair
  dsimp only
  rcases hs : jsSplitWs (jsTrimL t) with _ | ⟨a, _ | ⟨b, _ | _⟩⟩
  · exact Or.inl ⟨rfl, rfl⟩
  · exact Or.inl ⟨rfl, rfl⟩
  · rcases ha : jsNumberL a with _ | x
    · exact Or.inl ⟨by simp [ha], by simp [ha]⟩
    · rcases hb : jsNumberL b with _ | y
      · exact Or.inl ⟨by simp [ha, hb], by simp [ha, hb]⟩
      · exact Or.inr ⟨by simp [ha, hb], ⟨(x, y), by simp [ha, hb]⟩⟩
  · exact Or.inl ⟨rfl, rfl⟩

/-- The token list either tokenizes successfully (no bad token), or the
first bad token exists, is in the list, and its format error is the
result. -/
theorem tokenizeL_cases (ts : List (List Char)) :
    (firstBadToken ts = none ∧ ∃ ps, tokenizeL ts = .ok ps) ∨
    (∃ t, firstBadToken ts = some t ∧ t ∈ ts ∧ tokenNumericPair t = false ∧
      tokenizeL ts = .error (fmtMsg (jsTrimL t))) := by
  induction ts with
  | nil => exact Or.inl ⟨rfl, [], rfl⟩
  | cons t ts ih =>
    rcases parseToken_cases t with ⟨hb, he⟩ | ⟨hg, p, hp⟩
    · refine Or.inr ⟨t, ?_, List.mem_cons_self t ts, hb, ?_⟩
      · unfold firstBadToken; rw [hb]; simp
      · unfold tokenizeL; rw [he]
    · rcases ih with ⟨hn, ps, hok⟩ | ⟨t2, hf, hm, hb2, he2⟩
      · refine Or.inl ⟨?_, p :: ps, ?_⟩
        · unfold firstBadToken; rw [hg]; simpa using hn
        · unfold tokenizeL; rw [hp, hok]
      · refine Or.inr ⟨t2, ?_, List.mem_cons_of_mem t hm, hb2, ?_⟩
        · unfold firstBadToken; rw [hg]; simpa using hf
        · unfold tokenizeL; rw [hp, he2]

/-- The format error is never the `TypeError` of the algorithm phase. -/
theorem fmtMsg_ne_typeErr (t : List Char) : fmtMsg t ≠ "TypeError" := by
  intro h
  have h2 : (fmtMsg t).data.head? = ("TypeError" : String).data.head? := by rw [h]
  have e1 : (fmtMsg t).data.head? = some 'I' := rfl
  rw [e1] at h2
  simp at h2

/-- The format error is never the range error. -/
theorem fmtMsg_ne_rangeMsg (t : List Char) (u v : ℚ) (n : Nat) :
    fmtMsg t ≠ rangeMsg u v n := by
  intro h
  have h2 : (fmtMsg t).data.head? = (rangeMsg u v n).data.head? := by rw [h]
  have e1 : (fmtMsg t).data.head? = some 'I' := rfl
  have e2 : (rangeMsg u v n).data.head? = some 'E' := rfl
  rw [e1, e2] at h2
  simp at h2

/-- An error reported by `runAlgos` is the `TypeError`. -/
theorem runAlgos_msg (st : GVState) (m : String)
    (h : (runAlgos st).2 = some m) : m = "TypeError" := by
  unfold runAlgos at h
  dsimp only at h
  by_cases hb : st.showBridges
  · rcases hi : intEdges st.edges with _ | es <;> simp [hb, hi] at h
    exact h.symm
  · by_cases hs : st.showSCC
    · rcases hi : intEdges st.edges with _ | es <;> simp [hb, hs, hi] at h
      exact h.symm
    · simp [hb, hs] at h

/-- An error reported by the edge-validation loop is a range error. -/
theorem addEdgesLoop_msg (n : Nat) :
    ∀ pairs : List (ℚ × ℚ), ∀ m, (addEdgesLoop n pairs).2 = some m →
      ∃ u v, m = rangeMsg u v n := by
  intro pairs
  induction pairs with
  | nil => intro m h; simp [addEdgesLoop] at h
  | cons p rest ih =>
    intro m h
    obtain ⟨u, v⟩ := p
    rw [addEdgesLoop] at h
    split at h
    · exact ⟨u, v, by simpa using h.symm⟩
    · exact ih m h

end GraphViz

namespace GraphViz

/-- When no token is bad, every token passes the numeric-pair test. -/
theorem firstBadToken_none (ts : List (List Char)) (h : firstBadToken ts = none) :
    ∀ t ∈ ts, tokenNumericPair t = true := by
  induction ts with
  | nil => intro t ht; simp at ht
  | cons t ts ih =>
    intro u hu
    unfold firstBadToken at h
    by_cases hg : tokenNumericPair t
    · rw [if_pos hg] at h
      rcases List.mem_cons.mp hu with rfl | hm
      · exact hg
      · exact ih h u hm
    · rw [if_neg hg] at h
      cases h

/-- Claim C5 (amended): a parse reports a format error (and no other
error has the shape of one) exactly when the trimmed edge specification
is nonempty and some comma-separated token fails the code's test of
"exactly two `Number`-convertible fields"; the error names the first
such token, trimmed.  Non-integer numerals such as `2.5` pass the test,
so the spec's "two integers" reading is refuted by
`format_error_accepts_noninteger`. -/
theorem parse_format_error_iff (st : GVState) (w h : ℝ) (n : Nat) (s : String)
    (d sl sb sc : Bool) :
    ((∃ t, (parseInput st w h n s d sl sb sc).2 = some (fmtMsg t)) ↔
      jsTrimL s.data ≠ [] ∧
        ∃ tok ∈ splitChar ',' s.data, tokenNumericPair tok = false) ∧
    (∀ tok, jsTrimL s.data ≠ [] →
      firstBadToken (splitChar ',' s.data) = some tok →
      (parseInput st w h n s d sl sb sc).2 = some (fmtMsg (jsTrimL tok))) := by
  unfold parseInput
  dsimp only
  by_cases hemp : jsTrimL s.data = []
  · rw [if_pos hemp]
    refine ⟨⟨?_, ?_⟩, ?_⟩
    · rintro ⟨t, ht⟩
      exact absurd (runAlgos_msg _ _ ht) (fmtMsg_ne_typeErr t)
    · rintro ⟨hne, -⟩
      exact absurd hemp hne
    · intro tok hne
      exact absurd hemp hne
  · rw [if_neg hemp]
    rcases tokenizeL_cases (splitChar ',' s.data) with ⟨hf, ps, hok⟩ | ⟨t, hf, hmem, hbad, herr⟩
    · rw [hok]
      dsimp only
      rcases hadd : addEdgesLoop n ps with ⟨es, merr⟩
      cases merr with
      | none =>
        refine ⟨⟨?_, ?_⟩, ?_⟩
        · rintro ⟨t, ht⟩
          exact absurd (runAlgos_msg _ _ ht) (fmtMsg_ne_typeErr t)
        · rintro ⟨-, tok, hm, hb⟩
          rw [firstBadToken_none _ hf tok hm] at hb
          cases hb
        · intro tok hne hfirst
          rw [hf] at hfirst
          cases hfirst
      | some m =>
        obtain ⟨u, v, rfl⟩ := addEdgesLoop_msg n ps m (by rw [hadd])
        refine ⟨⟨?_, ?_⟩, ?_⟩
        · rintro ⟨t, ht⟩
          simp only [Option.some.injEq] at ht
          exact absurd ht.symm (fmtMsg_ne_rangeMsg t u v n)
        · rintro ⟨-, tok, hm, hb⟩
          rw [firstBadToken_none _ hf tok hm] at hb
          cases hb
        · intro tok hne hfirst
          rw [hf] at hfirst
          cases hfirst
    · rw [herr]
      dsimp only
      refine ⟨⟨?_, ?_⟩, ?_⟩
      · rintro -
        exact ⟨hemp, t, hmem, hbad⟩
      · rintro -
        exact ⟨jsTrimL t, rfl⟩
      · intro tok hne hfirst
        rw [hf] at hfirst
        cases hfirst
        rfl

/-- Claim C5 (counterexample): with three nodes, the edge specification
"1 2, 2.5 3" contains the token " 2.5 3", which is not a pair of
integers, yet the parse succeeds without any error: the code only
requires `Number`-convertible fields, not integers. -/
theorem format_error_accepts_noninteger :
    (parseInput initState 800 600 3 "1 2, 2.5 3" false true false false).2 = none ∧
    " 2.5 3".data ∈ splitChar ',' "1 2, 2.5 3".data ∧
    specIntPair " 2.5 3".data = false ∧
    (parseInput initState 800 600 3 "1 2, 2.5 3" false true false false).1.edges =
      [(1, 2), (5 / 2, 3)] := by
  refine ⟨rfl, ?_, ?_, rfl⟩ <;> decide

/-- Witness instantiating `parse_format_error_iff` at a concrete failing
specification. -/
theorem parse_format_error_iff_witness :
    ((∃ t, (parseInput initState 800 600 3 "1 2, x 3" false true false false).2 =
        some (fmtMsg t)) ↔
      jsTrimL "1 2, x 3".data ≠ [] ∧
        ∃ tok ∈ splitChar ',' "1 2, x 3".data, tokenNumericPair tok = false) ∧
    (∀ tok, jsTrimL "1 2, x 3".data ≠ [] →
      firstBadToken (splitChar ',' "1 2, x 3".data) = some tok →
      (parseInput initState 800 600 3 "1 2, x 3" false true false false).2 =
        some (fmtMsg (jsTrimL tok))) :=
  parse_format_error_iff initState 800 600 3 "1 2, x 3" false true false false

end GraphViz

namespace GraphViz

/-- Effect of one `adj[x].push(y)` on occurrence counts. -/
theorem addEdge_count (a : Adj) (x y u v : Nat) :
    ((addEdge a x y) u).count v = (a u).count v + (if u = x ∧ v = y then 1 else 0) := by
  unfold addEdge
  by_cases hx : u = x
  · subst hx
    rw [if_pos rfl, List.count_append]
    by_cases hy : v = y
    · subst hy; simp
    · simp [hy, List.count_singleton']
  · rw [if_neg hx]
    simp [hx]

/-- Commuted conjunction under a counting `if`. -/
theorem ite_and_comm (p q : Prop) [Decidable p] [Decidable q] :
    (if p ∧ q then (1 : Nat) else 0) = if q ∧ p then 1 else 0 := by
  split_ifs with h1 h2 h3
  · rfl
  · exact absurd ⟨h1.2, h1.1⟩ h2
  · exact absurd ⟨h3.2, h3.1⟩ h1
  · rfl

/-- Counting a pair in a consed edge list. -/
theorem count_cons_pair (x y u v : Nat) (l : List (Nat × Nat)) :
    List.count (u, v) ((x, y) :: l) =
      List.count (u, v) l + (if u = x ∧ v = y then 1 else 0) := by
  rw [List.count_cons]
  congr 1
  simp only [beq_iff_eq, Prod.mk.injEq]
  split_ifs with h1 h2 h3
  · rfl
  · exact absurd ⟨h1.1.symm, h1.2.symm⟩ h2
  · exact absurd ⟨h3.1.symm, h3.2.symm⟩ h1
  · rfl

/-- Multiplicity in the directed adjacency built by `findSCCs`: each
occurrence of the edge `(u, v)` contributes one entry. -/
theorem dirAdj_count (es : List (Nat × Nat)) (u v : Nat) :
    (dirAdj es u).count v = es.count (u, v) := by
  unfold dirAdj
  suffices h : ∀ a : Adj, ((es.foldl (fun a e => addEdge a e.1 e.2) a) u).count v
      = (a u).count v + es.count (u, v) by simpa using h (fun _ => [])
  induction es with
  | nil => intro a; simp
  | cons e es ih =>
    intro a
    rcases e with ⟨x, y⟩
    rw [List.foldl_cons, ih, addEdge_count, count_cons_pair]
    dsimp only
    ring

/-- Multiplicity in the reverse adjacency built by `findSCCs`. -/
theorem revAdjL_count (es : List (Nat × Nat)) (u v : Nat) :
    (revAdjL es u).count v = es.count (v, u) := by
  unfold revAdjL
  suffices h : ∀ a : Adj, ((es.foldl (fun a e => addEdge a e.2 e.1) a) u).count v
      = (a u).count v + es.count (v, u) by simpa using h (fun _ => [])
  induction es with
  | nil => intro a; simp
  | cons e es ih =>
    intro a
    rcases e with ⟨x, y⟩
    rw [List.foldl_cons, ih, addEdge_count, count_cons_pair]
    dsimp only
    rw [ite_and_comm]
    ring

/-- Multiplicity in the undirected adjacency built by `findBridges`:
each occurrence of an edge contributes an entry in both directions (a
self-loop contributes two entries on its node). -/
theorem undirAdj_count (es : List (Nat × Nat)) (u v : Nat) :
    (undirAdj es u).count v = es.count (u, v) + es.count (v, u) := by
  unfold undirAdj
  suffices h : ∀ a : Adj,
      ((es.foldl (fun a e => addEdge (addEdge a e.1 e.2) e.2 e.1) a) u).count v
      = (a u).count v + (es.count (u, v) + es.count (v, u)) by
    simpa using h (fun _ => [])
  induction es with
  | nil => intro a; simp
  | cons e es ih =>
    intro a
    rcases e with ⟨x, y⟩
    rw [List.foldl_cons, ih, addEdge_count, addEdge_count, count_cons_pair,
      count_cons_pair]
    dsimp only
    rw [ite_and_comm (u = y) (v = x)]
    ring

/-- The edge-validation loop keeps every in-range pair, in order, with
multiplicity. -/
theorem addEdgesLoop_keeps (n : Nat) :
    ∀ pairs : List (ℚ × ℚ),
      (∀ e ∈ pairs, 1 ≤ e.1 ∧ e.1 ≤ (n : ℚ) ∧ 1 ≤ e.2 ∧ e.2 ≤ (n : ℚ)) →
      addEdgesLoop n pairs = (pairs, none) := by
  intro pairs
  induction pairs with
  | nil => intro _; rfl
  | cons p rest ih =>
    intro h
    obtain ⟨u, v⟩ := p
    obtain ⟨h1, h2, h3, h4⟩ := h (u, v) (List.mem_cons_self _ _)
    rw [addEdgesLoop, if_neg (by push_neg; exact ⟨h1, h2, h3, h4⟩),
      ih (fun e he => h e (List.mem_cons_of_mem _ he))]

/-- Claim C10: duplicate (parallel) edges are accepted and kept: the
validation loop keeps every occurrence as a separate edge, and each
occurrence contributes its own adjacency entries to the structures used
by bridge and SCC detection — no deduplication happens anywhere. -/
theorem parse_keeps_duplicate_edges (n : Nat) (pairs : List (ℚ × ℚ))
    (h : ∀ e ∈ pairs, 1 ≤ e.1 ∧ e.1 ≤ (n : ℚ) ∧ 1 ≤ e.2 ∧ e.2 ≤ (n : ℚ)) :
    addEdgesLoop n pairs = (pairs, none) ∧
    ∀ (es : List (Nat × Nat)) (u v : Nat),
      (undirAdj es u).count v = es.count (u, v) + es.count (v, u) ∧
      (dirAdj es u).count v = es.count (u, v) ∧
      (revAdjL es u).count v = es.count (v, u) :=
  ⟨addEdgesLoop_keeps n pairs h,
   fun es u v => ⟨undirAdj_count es u v, dirAdj_count es u v, revAdjL_count es u v⟩⟩

/-- Witness for `parse_keeps_duplicate_edges` on the duplicated edge
"1 2, 1 2" with two nodes. -/
theorem parse_keeps_duplicate_edges_witness :
    addEdgesLoop 2 [(1, 2), (1, 2)] = ([(1, 2), (1, 2)], none) ∧
    ∀ (es : List (Nat × Nat)) (u v : Nat),
      (undirAdj es u).count v = es.count (u, v) + es.count (v, u) ∧
      (dirAdj es u).count v = es.count (u, v) ∧
      (revAdjL es u).count v = es.count (v, u) :=
  parse_keeps_duplicate_edges 2 [(1, 2), (1, 2)] (by decide)

end GraphViz

namespace GraphViz

/-- The code's root-in-`[0,1]` test is exactly the existence of a real
root of the quadratic in `[0,1]`. -/
theorem quad_root_unit_iff (a b c : ℝ) (ha : a ≠ 0) :
    (0 ≤ b * b - 4 * a * c ∧
      ((0 ≤ (-b - Real.sqrt (b * b - 4 * a * c)) / (2 * a) ∧
          (-b - Real.sqrt (b * b - 4 * a * c)) / (2 * a) ≤ 1) ∨
       (0 ≤ (-b + Real.sqrt (b * b - 4 * a * c)) / (2 * a) ∧
          (-b + Real.sqrt (b * b - 4 * a * c)) / (2 * a) ≤ 1))) ↔
    ∃ t : ℝ, 0 ≤ t ∧ t ≤ 1 ∧ a * (t * t) + b * t + c = 0 := by
  constructor
  · rintro ⟨hd, hcase⟩
    have hs : discrim a b c = Real.sqrt (b * b - 4 * a * c) * Real.sqrt (b * b - 4 * a * c) := by
      rw [Real.mul_self_sqrt hd, discrim]
      ring
    rcases hcase with ⟨h0, h1⟩ | ⟨h0, h1⟩
    · exact ⟨_, h0, h1, (quadratic_eq_zero_iff ha hs _).mpr (Or.inr rfl)⟩
    · exact ⟨_, h0, h1, (quadratic_eq_zero_iff ha hs _).mpr (Or.inl rfl)⟩
  · rintro ⟨t, h0, h1, hq⟩
    have hdisc : discrim a b c = (2 * a * t + b) ^ 2 :=
      discrim_eq_sq_of_quadratic_eq_zero hq
    have hd : 0 ≤ b * b - 4 * a * c := by
      have h2 : b * b - 4 * a * c = (2 * a * t + b) ^ 2 := by
        rw [← hdisc, discrim]; ring
      rw [h2]
      positivity
    have hs : discrim a b c = Real.sqrt (b * b - 4 * a * c) * Real.sqrt (b * b - 4 * a * c) := by
      rw [Real.mul_self_sqrt hd, discrim]
      ring
    refine ⟨hd, ?_⟩
    rcases (quadratic_eq_zero_iff ha hs t).mp hq with h | h
    · exact Or.inr ⟨h ▸ h0, h ▸ h1⟩
    · exact Or.inl ⟨h ▸ h0, h ▸ h1⟩

end GraphViz

namespace GraphViz

/-- For distinct endpoint positions, the router's circle test holds iff
the segment point at some parameter `t ∈ [0,1]` lies exactly on the
boundary of the circle around `C` enlarged by the 10-pixel buffer. -/
theorem lineIntersectsCircle_iff (A B C : NodeV)
    (hAB : (A.x, A.y) ≠ (B.x, B.y)) :
    lineIntersectsCircle A B C ↔
      ∃ t : ℝ, 0 ≤ t ∧ t ≤ 1 ∧
        (A.x + t * (B.x - A.x) - C.x) ^ 2 + (A.y + t * (B.y - A.y) - C.y) ^ 2 =
          (C.radius + 10) ^ 2 := by
  have ha : (B.x - A.x) * (B.x - A.x) + (B.y - A.y) * (B.y - A.y) ≠ 0 := by
    intro h
    have hx : B.x - A.x = 0 := by nlinarith [sq_nonneg (B.x - A.x), sq_nonneg (B.y - A.y)]
    have hy : B.y - A.y = 0 := by nlinarith [sq_nonneg (B.x - A.x), sq_nonneg (B.y - A.y)]
    exact hAB (by rw [Prod.mk.injEq]; constructor <;> linarith)
  unfold lineIntersectsCircle
  rw [quad_root_unit_iff _ _ _ ha]
  constructor <;> rintro ⟨t, h0, h1, hq⟩ <;> exact ⟨t, h0, h1, by linear_combination hq⟩

end GraphViz

namespace GraphViz

/-- Claim C8 (amended): for distinct endpoint positions, the router
curves a non-self-loop edge iff for some node other than the two
endpoints the straight segment crosses the boundary of that node's
circle enlarged by the 10-pixel buffer at a parameter `t ∈ [0,1]` —
i.e. the code's quadratic root test.  This is not equivalent to passing
within `radius + 10` of the node's centre: a segment lying entirely
inside the enlarged circle has no boundary crossing in `[0,1]` and is
drawn straight (see the counterexample). -/
theorem edge_curved_iff_boundary_crossing (nodes : List NodeV) (A B : NodeV)
    (hAB : (A.x, A.y) ≠ (B.x, B.y)) :
    edgeIntersectsNodes nodes A B ↔
      ∃ C ∈ nodes, C.id ≠ A.id ∧ C.id ≠ B.id ∧
        ∃ t : ℝ, 0 ≤ t ∧ t ≤ 1 ∧
          (A.x + t * (B.x - A.x) - C.x) ^ 2 + (A.y + t * (B.y - A.y) - C.y) ^ 2 =
            (C.radius + 10) ^ 2 := by
  unfold edgeIntersectsNodes
  constructor
  · rintro ⟨C, hm, hia, hib, hline⟩
    exact ⟨C, hm, hia, hib, (lineIntersectsCircle_iff A B C hAB).mp hline⟩
  · rintro ⟨C, hm, hia, hib, hroot⟩
    exact ⟨C, hm, hia, hib, (lineIntersectsCircle_iff A B C hAB).mpr hroot⟩

/-- Witness for `edge_curved_iff_boundary_crossing` at concrete nodes. -/
theorem edge_curved_iff_boundary_crossing_witness :
    edgeIntersectsNodes
        [{ id := 1, x := 0, y := 0, radius := 25 },
         { id := 2, x := 100, y := 0, radius := 25 },
         { id := 3, x := 50, y := 0, radius := 25 }]
        { id := 1, x := 0, y := 0, radius := 25 }
        { id := 2, x := 100, y := 0, radius := 25 } ↔
      ∃ C ∈ [({ id := 1, x := 0, y := 0, radius := 25 } : NodeV),
             { id := 2, x := 100, y := 0, radius := 25 },
             { id := 3, x := 50, y := 0, radius := 25 }],
        C.id ≠ ({ id := 1, x := 0, y := 0, radius := 25 } : NodeV).id ∧
        C.id ≠ ({ id := 2, x := 100, y := 0, radius := 25 } : NodeV).id ∧
        ∃ t : ℝ, 0 ≤ t ∧ t ≤ 1 ∧
          (({ id := 1, x := 0, y := 0, radius := 25 } : NodeV).x +
              t * (({ id := 2, x := 100, y := 0, radius := 25 } : NodeV).x -
                ({ id := 1, x := 0, y := 0, radius := 25 } : NodeV).x) - C.x) ^ 2 +
            (({ id := 1, x := 0, y := 0, radius := 25 } : NodeV).y +
              t * (({ id := 2, x := 100, y := 0, radius := 25 } : NodeV).y -
                ({ id := 1, x := 0, y := 0, radius := 25 } : NodeV).y) - C.y) ^ 2 =
          (C.radius + 10) ^ 2 :=
  edge_curved_iff_boundary_crossing _ _ _
    (by intro h; rw [Prod.mk.injEq] at h; norm_num at h)

end GraphViz

namespace GraphViz

/-- Claim C8 (counterexample): with endpoints `(0,0)` and `(10,0)` and a
third node centred at `(5,0)` with radius 25, the whole segment lies
strictly inside the third node's enlarged circle (the midpoint is the
centre itself, well within `radius + 10`), yet both quadratic roots
(`-3` and `4`) fall outside `[0,1]`, so the router reports no
intersection and draws the edge straight — refuting the claimed
equivalence between "passes within `radius + buffer`" and the root
test. -/
theorem edge_router_inside_circle :
    ¬ edgeIntersectsNodes
        [{ id := 1, x := 0, y := 0, radius := 25 },
         { id := 2, x := 10, y := 0, radius := 25 },
         { id := 3, x := 5, y := 0, radius := 25 }]
        { id := 1, x := 0, y := 0, radius := 25 }
        { id := 2, x := 10, y := 0, radius := 25 } ∧
    (∃ t : ℝ, 0 ≤ t ∧ t ≤ 1 ∧
      ((0 : ℝ) + t * (10 - 0) - 5) ^ 2 + ((0 : ℝ) + t * (0 - 0) - 0) ^ 2 ≤
        ((25 : ℝ) + 10) ^ 2) := by
  constructor
  · rintro ⟨C, hm, hia, hib, hline⟩
    simp only [List.mem_cons, List.not_mem_nil, or_false] at hm
    rcases hm with rfl | rfl | rfl
    · exact hia rfl
    · exact hib rfl
    · have hsq : Real.sqrt 490000 = 700 := by
        rw [show (490000 : ℝ) = 700 ^ 2 by norm_num,
          Real.sqrt_sq (by norm_num : (0 : ℝ) ≤ 700)]
      unfold lineIntersectsCircle at hline
      norm_num at hline
      rw [hsq] at hline
      rcases hline with ⟨h0, h1⟩ | ⟨h0, h1⟩ <;> norm_num at h0 h1
  · exact ⟨1 / 2, by norm_num, by norm_num, by norm_num⟩

end GraphViz

namespace GraphViz

/-- One first-pass DFS call extends the state by a block of newly
visited nodes: they are pushed on top of the stack, are pairwise
distinct, were unvisited before, lie in `S`, and are exactly the new
part of the visited set. -/
def K1Step (S : Finset Nat) (s s2 : K1) : Prop :=
  ∃ push : List Nat,
    s2.stack = push ++ s.stack ∧ push.Nodup ∧
    (∀ x ∈ push, x ∉ s.vis ∧ x ∈ S) ∧ s2.vis = s.vis ∪ push.toFinset

theorem k1step_refl (S : Finset Nat) (s : K1) : K1Step S s s :=
  ⟨[], by simp, List.nodup_nil, by simp, by simp⟩

theorem k1step_vis_subset {S : Finset Nat} {s s2 : K1} (h : K1Step S s s2) :
    s.vis ⊆ s2.vis := by
  obtain ⟨p, -, -, -, hv⟩ := h
  rw [hv]
  exact Finset.subset_union_left

theorem k1step_trans {S : Finset Nat} {s1 s2 s3 : K1}
    (h12 : K1Step S s1 s2) (h23 : K1Step S s2 s3) : K1Step S s1 s3 := by
  obtain ⟨p1, hs1, hn1, hm1, hv1⟩ := h12
  obtain ⟨p2, hs2, hn2, hm2, hv2⟩ := h23
  refine ⟨p2 ++ p1, ?_, ?_, ?_, ?_⟩
  · rw [hs2, hs1, List.append_assoc]
  · refine List.Nodup.append hn2 hn1 ?_
    intro x hx2 hx1
    exact (hm2 x hx2).1 (by rw [hv1]; exact Finset.mem_union_right _ (List.mem_toFinset.mpr hx1))
  · intro x hx
    rcases List.mem_append.mp hx with h | h
    · refine ⟨fun hx1 => (hm2 x h).1 ?_, (hm2 x h).2⟩
      rw [hv1]
      exact Finset.mem_union_left _ hx1
    · exact hm1 x h
  · rw [hv2, hv1, List.toFinset_append, Finset.union_assoc, Finset.union_comm p2.toFinset]

/-- The joint invariant of `dfs1` and its neighbour fold, by induction
on the fuel. -/
theorem dfs1_spec (adj : Adj) (S : Finset Nat)
    (hadj : ∀ y x, x ∈ adj y → x ∈ S) :
    ∀ fuel : Nat,
      (∀ v s, v ∉ s.vis → v ∈ S → K1Step S s (dfs1 adj fuel v s)) ∧
      (∀ (l : List Nat) (s : K1), (∀ x ∈ l, x ∈ S) →
        K1Step S s (l.foldl (fun s u => if u ∈ s.vis then s else dfs1 adj fuel u s) s)) := by
  intro fuel
  induction fuel with
  | zero =>
    have hbase : ∀ (l : List Nat) (s : K1),
        l.foldl (fun s u => if u ∈ s.vis then s else dfs1 adj 0 u s) s = s := by
      intro l
      induction l with
      | nil => intro s; rfl
      | cons u us ih =>
        intro s
        rw [List.foldl_cons]
        have : (if u ∈ s.vis then s else dfs1 adj 0 u s) = s := by
          split <;> rfl
        rw [this, ih]
    constructor
    · intro v s _ _
      exact k1step_refl S s
    · intro l s _
      rw [hbase]
      exact k1step_refl S s
  | succ fuel ih =>
    have hP : ∀ v s, v ∉ s.vis → v ∈ S → K1Step S s (dfs1 adj (fuel + 1) v s) := by
      intro v s hv hvS
      have hQ := ih.2 (adj v) ⟨insert v s.vis, s.stack⟩ (fun x hx => hadj v x hx)
      obtain ⟨push, hstack, hnodup, hmem, hvis⟩ := hQ
      show K1Step S s ⟨_, v :: _⟩
      refine ⟨v :: push, ?_, ?_, ?_, ?_⟩
      · simpa using hstack
      · refine List.nodup_cons.mpr ⟨fun hc => (hmem v hc).1 (Finset.mem_insert_self v _), hnodup⟩
      · intro x hx
        rcases List.mem_cons.mp hx with rfl | hx2
        · exact ⟨hv, hvS⟩
        · exact ⟨fun hc => (hmem x hx2).1 (Finset.mem_insert_of_mem hc), (hmem x hx2).2⟩
      · dsimp only
        rw [hvis]
        dsimp only
        rw [List.toFinset_cons, Finset.insert_union, Finset.union_insert]
    refine ⟨hP, ?_⟩
    intro l
    induction l with
    | nil => intro s _; exact k1step_refl S s
    | cons u us ihl =>
      intro s hl
      rw [List.foldl_cons]
      by_cases hu : u ∈ s.vis
      · rw [if_pos hu]
        exact ihl s (fun x hx => hl x (List.mem_cons_of_mem u hx))
      · rw [if_neg hu]
        exact k1step_trans (hP u s hu (hl u (List.mem_cons_self u us)))
          (ihl _ (fun x hx => hl x (List.mem_cons_of_mem u hx)))

end GraphViz

namespace GraphViz

/-- With nonzero fuel, `dfs1` marks its start node. -/
theorem dfs1_marks (adj : Adj) (S : Finset Nat)
    (hadj : ∀ y x, x ∈ adj y → x ∈ S) (fuel : Nat) (v : Nat) (s : K1) :
    v ∈ (dfs1 adj (fuel + 1) v s).vis := by
  have hQ := (dfs1_spec adj S hadj fuel).2 (adj v) ⟨insert v s.vis, s.stack⟩
    (fun x hx => hadj v x hx)
  exact k1step_vis_subset hQ (Finset.mem_insert_self v _)

/-- Invariant of the root loop of the first Kosaraju pass: the stack
stays duplicate-free, mirrors the visited set, grows only inside `S`,
the visited set is monotone, and every processed root ends visited. -/
theorem pass1_fold (adj : Adj) (S : Finset Nat)
    (hadj : ∀ y x, x ∈ adj y → x ∈ S) (fuel : Nat) :
    ∀ (l : List Nat) (s : K1), (∀ i ∈ l, i ∈ S) →
      s.stack.Nodup → s.stack.toFinset = s.vis → s.vis ⊆ S →
      (let s2 := l.foldl (fun s i => if i ∈ s.vis then s else dfs1 adj (fuel + 1) i s) s
       s2.stack.Nodup ∧ s2.stack.toFinset = s2.vis ∧ s2.vis ⊆ S ∧
         s.vis ⊆ s2.vis ∧ ∀ i ∈ l, i ∈ s2.vis) := by
  intro l
  induction l with
  | nil =>
    intro s _ h1 h2 h3
    exact ⟨h1, h2, h3, Finset.Subset.refl _, by simp⟩
  | cons i is ih =>
    intro s hl h1 h2 h3
    rw [List.foldl_cons]
    by_cases hi : i ∈ s.vis
    · rw [if_pos hi]
      obtain ⟨g1, g2, g3, g4, g5⟩ := ih s (fun x hx => hl x (List.mem_cons_of_mem i hx)) h1 h2 h3
      refine ⟨g1, g2, g3, g4, ?_⟩
      intro x hx
      rcases List.mem_cons.mp hx with rfl | hx2
      · exact g4 hi
      · exact g5 x hx2
    · rw [if_neg hi]
      obtain ⟨push, hstack, hnodup, hmem, hvis⟩ :=
        (dfs1_spec adj S hadj (fuel + 1)).1 i s hi (hl i (List.mem_cons_self i is))
      have hmarks : i ∈ (dfs1 adj (fuel + 1) i s).vis := dfs1_marks adj S hadj fuel i s
      have hn1 : (dfs1 adj (fuel + 1) i s).stack.Nodup := by
        rw [hstack]
        refine List.Nodup.append hnodup h1 ?_
        intro x hxp hxs
        exact (hmem x hxp).1 (by rw [← h2]; exact List.mem_toFinset.mpr hxs)
      have hn2 : (dfs1 adj (fuel + 1) i s).stack.toFinset = (dfs1 adj (fuel + 1) i s).vis := by
        rw [hstack, List.toFinset_append, hvis, h2, Finset.union_comm]
      have hn3 : (dfs1 adj (fuel + 1) i s).vis ⊆ S := by
        rw [hvis]
        intro x hx
        rcases Finset.mem_union.mp hx with hx1 | hx2
        · exact h3 hx1
        · exact (hmem x (List.mem_toFinset.mp hx2)).2
      have hn4 : s.vis ⊆ (dfs1 adj (fuel + 1) i s).vis := by
        rw [hvis]
        exact Finset.subset_union_left
      obtain ⟨g1, g2, g3, g4, g5⟩ := ih (dfs1 adj (fuel + 1) i s)
        (fun x hx => hl x (List.mem_cons_of_mem i hx)) hn1 hn2 hn3
      refine ⟨g1, g2, g3, hn4.trans g4, ?_⟩
      intro x hx
      rcases List.mem_cons.mp hx with rfl | hx2
      · exact g4 hmarks
      · exact g5 x hx2

end GraphViz

namespace GraphViz

/-- One second-pass DFS call appends a block of newly visited nodes to
the collected component. -/
def K2Step (S : Finset Nat) (s s2 : K2) : Prop :=
  ∃ add : List Nat,
    s2.comp = s.comp ++ add ∧ add.Nodup ∧
    (∀ x ∈ add, x ∉ s.vis ∧ x ∈ S) ∧ s2.vis = s.vis ∪ add.toFinset

theorem k2step_refl (S : Finset Nat) (s : K2) : K2Step S s s :=
  ⟨[], by simp, List.nodup_nil, by simp, by simp⟩

theorem k2step_vis_subset {S : Finset Nat} {s s2 : K2} (h : K2Step S s s2) :
    s.vis ⊆ s2.vis := by
  obtain ⟨p, -, -, -, hv⟩ := h
  rw [hv]
  exact Finset.subset_union_left

theorem k2step_trans {S : Finset Nat} {s1 s2 s3 : K2}
    (h12 : K2Step S s1 s2) (h23 : K2Step S s2 s3) : K2Step S s1 s3 := by
  obtain ⟨p1, hs1, hn1, hm1, hv1⟩ := h12
  obtain ⟨p2, hs2, hn2, hm2, hv2⟩ := h23
  refine ⟨p1 ++ p2, ?_, ?_, ?_, ?_⟩
  · rw [hs2, hs1, List.append_assoc]
  · refine List.Nodup.append hn1 hn2 ?_
    intro x hx1 hx2
    exact (hm2 x hx2).1 (by rw [hv1]; exact Finset.mem_union_right _ (List.mem_toFinset.mpr hx1))
  · intro x hx
    rcases List.mem_append.mp hx with h | h
    · exact hm1 x h
    · refine ⟨fun hx1 => (hm2 x h).1 ?_, (hm2 x h).2⟩
      rw [hv1]
      exact Finset.mem_union_left _ hx1
  · rw [hv2, hv1, List.toFinset_append, Finset.union_assoc]

/-- The joint invariant of `dfs2` and its neighbour fold. -/
theorem dfs2_spec (radj : Adj) (S : Finset Nat)
    (hadj : ∀ y x, x ∈ radj y → x ∈ S) :
    ∀ fuel : Nat,
      (∀ v s, v ∉ s.vis → v ∈ S → K2Step S s (dfs2 radj fuel v s)) ∧
      (∀ (l : List Nat) (s : K2), (∀ x ∈ l, x ∈ S) →
        K2Step S s (l.foldl (fun s u => if u ∈ s.vis then s else dfs2 radj fuel u s) s)) := by
  intro fuel
  induction fuel with
  | zero =>
    have hbase : ∀ (l : List Nat) (s : K2),
        l.foldl (fun s u => if u ∈ s.vis then s else dfs2 radj 0 u s) s = s := by
      intro l
      induction l with
      | nil => intro s; rfl
      | cons u us ih =>
        intro s
        rw [List.foldl_cons]
        have : (if u ∈ s.vis then s else dfs2 radj 0 u s) = s := by
          split <;> rfl
        rw [this, ih]
    exact ⟨fun v s _ _ => k2step_refl S s, fun l s _ => by rw [hbase]; exact k2step_refl S s⟩
  | succ fuel ih =>
    have hP : ∀ v s, v ∉ s.vis → v ∈ S → K2Step S s (dfs2 radj (fuel + 1) v s) := by
      intro v s hv hvS
      have hQ := ih.2 (radj v) ⟨insert v s.vis, s.comp ++ [v]⟩ (fun x hx => hadj v x hx)
      obtain ⟨add, hcomp, hnodup, hmem, hvis⟩ := hQ
      refine ⟨v :: add, ?_, ?_, ?_, ?_⟩
      · show (dfs2 radj (fuel + 1) v s).comp = _
        rw [show dfs2 radj (fuel + 1) v s =
            (radj v).foldl (fun s u => if u ∈ s.vis then s else dfs2 radj fuel u s)
              ⟨insert v s.vis, s.comp ++ [v]⟩ from rfl, hcomp]
        simp
      · refine List.nodup_cons.mpr ⟨fun hc => (hmem v hc).1 (Finset.mem_insert_self v _), hnodup⟩
      · intro x hx
        rcases List.mem_cons.mp hx with rfl | hx2
        · exact ⟨hv, hvS⟩
        · exact ⟨fun hc => (hmem x hx2).1 (Finset.mem_insert_of_mem hc), (hmem x hx2).2⟩
      · rw [show dfs2 radj (fuel + 1) v s =
            (radj v).foldl (fun s u => if u ∈ s.vis then s else dfs2 radj fuel u s)
              ⟨insert v s.vis, s.comp ++ [v]⟩ from rfl, hvis]
        dsimp only
        rw [List.toFinset_cons, Finset.insert_union, Finset.union_insert]
    refine ⟨hP, ?_⟩
    intro l
    induction l with
    | nil => intro s _; exact k2step_refl S s
    | cons u us ihl =>
      intro s hl
      rw [List.foldl_cons]
      by_cases hu : u ∈ s.vis
      · rw [if_pos hu]
        exact ihl s (fun x hx => hl x (List.mem_cons_of_mem u hx))
      · rw [if_neg hu]
        exact k2step_trans (hP u s hu (hl u (List.mem_cons_self u us)))
          (ihl _ (fun x hx => hl x (List.mem_cons_of_mem u hx)))

/-- With nonzero fuel, `dfs2` marks its start node. -/
theorem dfs2_marks (radj : Adj) (S : Finset Nat)
    (hadj : ∀ y x, x ∈ radj y → x ∈ S) (fuel : Nat) (v : Nat) (s : K2) :
    v ∈ (dfs2 radj (fuel + 1) v s).vis := by
  have hQ := (dfs2_spec radj S hadj fuel).2 (radj v) ⟨insert v s.vis, s.comp ++ [v]⟩
    (fun x hx => hadj v x hx)
  exact k2step_vis_subset hQ (Finset.mem_insert_self v _)

end GraphViz

namespace GraphViz

/-- Invariant of the stack-popping loop of the second Kosaraju pass: the
concatenation of the collected components stays duplicate-free and
mirrors the visited set, which grows inside `S` and ends containing
every stack node. -/
theorem sccLoop_spec (radj : Adj) (S : Finset Nat)
    (hadj : ∀ y x, x ∈ radj y → x ∈ S) (fuel : Nat) :
    ∀ (stack : List Nat) (vis : Finset Nat) (acc : List (List Nat)),
      (∀ x ∈ stack, x ∈ S) →
      acc.flatten.Nodup → acc.flatten.toFinset = vis → vis ⊆ S →
      (let r := sccLoop radj (fuel + 1) stack vis acc
       r.2.flatten.Nodup ∧ r.2.flatten.toFinset = r.1 ∧ r.1 ⊆ S ∧ vis ⊆ r.1 ∧
         ∀ x ∈ stack, x ∈ r.1) := by
  intro stack
  induction stack with
  | nil =>
    intro vis acc _ h1 h2 h3
    exact ⟨h1, h2, h3, Finset.Subset.refl _, by simp⟩
  | cons v rest ih =>
    intro vis acc hst h1 h2 h3
    rw [sccLoop]
    by_cases hv : v ∈ vis
    · rw [if_pos hv]
      obtain ⟨g1, g2, g3, g4, g5⟩ := ih vis acc
        (fun x hx => hst x (List.mem_cons_of_mem v hx)) h1 h2 h3
      refine ⟨g1, g2, g3, g4, ?_⟩
      intro x hx
      rcases List.mem_cons.mp hx with rfl | hx2
      · exact g4 hv
      · exact g5 x hx2
    · rw [if_neg hv]
      obtain ⟨add, hcomp, hnodup, hmem, hvis⟩ :=
        (dfs2_spec radj S hadj (fuel + 1)).1 v ⟨vis, []⟩ hv (hst v (List.mem_cons_self v rest))
      have hmarks : v ∈ (dfs2 radj (fuel + 1) v ⟨vis, []⟩).vis :=
        dfs2_marks radj S hadj fuel v ⟨vis, []⟩
      have hcomp2 : (dfs2 radj (fuel + 1) v ⟨vis, []⟩).comp = add := by
        rw [hcomp]; simp
      have hj : (acc ++ [(dfs2 radj (fuel + 1) v ⟨vis, []⟩).comp]).flatten =
          acc.flatten ++ add := by
        rw [hcomp2]; simp
      have hn1 : (acc ++ [(dfs2 radj (fuel + 1) v ⟨vis, []⟩).comp]).flatten.Nodup := by
        rw [hj]
        refine List.Nodup.append h1 hnodup ?_
        intro x hx1 hx2
        exact (hmem x hx2).1 (by rw [← h2]; exact List.mem_toFinset.mpr hx1)
      have hn2 : (acc ++ [(dfs2 radj (fuel + 1) v ⟨vis, []⟩).comp]).flatten.toFinset =
          (dfs2 radj (fuel + 1) v ⟨vis, []⟩).vis := by
        rw [hj, List.toFinset_append, h2, hvis]
      have hn3 : (dfs2 radj (fuel + 1) v ⟨vis, []⟩).vis ⊆ S := by
        rw [hvis]
        intro x hx
        rcases Finset.mem_union.mp hx with hx1 | hx2
        · exact h3 hx1
        · exact (hmem x (List.mem_toFinset.mp hx2)).2
      have hn4 : vis ⊆ (dfs2 radj (fuel + 1) v ⟨vis, []⟩).vis := by
        rw [hvis]
        exact Finset.subset_union_left
      obtain ⟨g1, g2, g3, g4, g5⟩ := ih (dfs2 radj (fuel + 1) v ⟨vis, []⟩).vis
        (acc ++ [(dfs2 radj (fuel + 1) v ⟨vis, []⟩).comp])
        (fun x hx => hst x (List.mem_cons_of_mem v hx)) hn1 hn2 hn3
      refine ⟨g1, g2, g3, hn4.trans g4, ?_⟩
      intro x hx
      rcases List.mem_cons.mp hx with rfl | hx2
      · exact g4 hmarks
      · exact g5 x hx2

/-- Membership in the forward adjacency is edge membership. -/
theorem mem_dirAdj (es : List (Nat × Nat)) (v u : Nat) :
    u ∈ dirAdj es v ↔ (v, u) ∈ es := by
  rw [← List.count_pos_iff (a := u), dirAdj_count, List.count_pos_iff]

/-- Membership in the reverse adjacency is reversed edge membership. -/
theorem mem_revAdjL (es : List (Nat × Nat)) (v u : Nat) :
    u ∈ revAdjL es v ↔ (u, v) ∈ es := by
  rw [← List.count_pos_iff (a := u), revAdjL_count, List.count_pos_iff]

/-- Membership in the undirected adjacency is edge membership in either
orientation. -/
theorem mem_undirAdj (es : List (Nat × Nat)) (v u : Nat) :
    u ∈ undirAdj es v ↔ (v, u) ∈ es ∨ (u, v) ∈ es := by
  rw [← List.count_pos_iff (a := u), undirAdj_count]
  rw [← List.count_pos_iff (a := (v, u)), ← List.count_pos_iff (a := (u, v))]
  omega

/-- The node-id list `1..n` as a finite set. -/
theorem range'_toFinset (n : Nat) :
    (List.range' 1 n).toFinset = Finset.Icc 1 n := by
  ext x
  simp only [List.mem_toFinset, List.mem_range'_1, Finset.mem_Icc]
  omega

end GraphViz

namespace GraphViz

/-- Claim C2: for every directed graph accepted by parse (all edge
endpoints in `[1, nodeCount]`), the SCC list computed by `findSCCs` is a
set partition of the node ids `1..nodeCount`: the concatenation of the
components is a permutation of `[1, ..., n]`, so every id appears in
exactly one component, exactly once, singletons included. -/
theorem findSCCs_partition (n : Nat) (edges : List (Nat × Nat))
    (h : ∀ e ∈ edges, 1 ≤ e.1 ∧ e.1 ≤ n ∧ 1 ≤ e.2 ∧ e.2 ≤ n) :
    ((findSCCs n edges).flatten).Perm (List.range' 1 n) := by
  have hadjF : ∀ y x, x ∈ dirAdj edges y → x ∈ Finset.Icc 1 n := by
    intro y x hx
    have h2 := h _ ((mem_dirAdj edges y x).mp hx)
    rw [Finset.mem_Icc]
    exact ⟨h2.2.2.1, h2.2.2.2⟩
  have hadjR : ∀ y x, x ∈ revAdjL edges y → x ∈ Finset.Icc 1 n := by
    intro y x hx
    have h2 := h _ ((mem_revAdjL edges y x).mp hx)
    rw [Finset.mem_Icc]
    exact ⟨h2.1, h2.2.1⟩
  unfold findSCCs
  dsimp only
  obtain ⟨p1n, p1t, p1S, -, p1all⟩ := pass1_fold (dirAdj edges) (Finset.Icc 1 n) hadjF n
    (List.range' 1 n) ⟨∅, []⟩
    (by intro i hi
        rw [List.mem_range'_1] at hi
        rw [Finset.mem_Icc]
        omega)
    (by simp) (by simp) (by simp)
  have hstackS : ∀ x ∈ ((List.range' 1 n).foldl
      (fun s i => if i ∈ s.vis then s else dfs1 (dirAdj edges) (n + 1) i s)
      (⟨∅, []⟩ : K1)).stack, x ∈ Finset.Icc 1 n := by
    intro x hx
    exact p1S (p1t ▸ List.mem_toFinset.mpr hx)
  obtain ⟨g1, g2, g3, -, g5⟩ := sccLoop_spec (revAdjL edges) (Finset.Icc 1 n) hadjR n
    ((List.range' 1 n).foldl
      (fun s i => if i ∈ s.vis then s else dfs1 (dirAdj edges) (n + 1) i s)
      (⟨∅, []⟩ : K1)).stack ∅ [] hstackS (by simp) (by simp) (by simp)
  refine List.perm_of_nodup_nodup_toFinset_eq g1 (List.nodup_range' 1 n) ?_
  rw [g2, range'_toFinset]
  apply Finset.Subset.antisymm g3
  intro x hx
  refine g5 x ?_
  rw [← List.mem_toFinset, p1t]
  apply p1all
  rw [List.mem_range'_1]
  rw [Finset.mem_Icc] at hx
  omega

/-- Witness for `findSCCs_partition`: the two-cycle `1 → 2 → 1` plus the
isolated node `3` partitions `{1, 2, 3}`. -/
theorem findSCCs_partition_witness :
    ((findSCCs 3 [(1, 2), (2, 1)]).flatten).Perm (List.range' 1 3) :=
  findSCCs_partition 3 [(1, 2), (2, 1)] (by decide)

end GraphViz

namespace GraphViz

/-- Specification of one neighbour scan: when it does not detect a
cycle, it visits every scanned neighbour, enqueues exactly the newly
visited ones (with their heads visited), and the queue growth matches
the visited-set growth. -/
theorem scanNbrs_spec (v : Nat) (p : Int) :
    ∀ (l : List Nat) (vis : Finset Nat) (q : List (Nat × Int))
      (vis2 : Finset Nat) (q2 : List (Nat × Int)),
      scanNbrs v p l vis q = some (vis2, q2) →
      vis ⊆ vis2 ∧
      (∀ x ∈ l, x ∈ vis2) ∧
      (∃ news : List (Nat × Int),
        q2 = q ++ news ∧
        (∀ r ∈ news, r.1 ∈ vis2) ∧
        (∀ x ∈ vis2, x ∈ vis ∨ ∃ r ∈ news, r.1 = x ∧ x ∈ l)) ∧
      vis2.card + q.length = vis.card + q2.length := by
  intro l
  induction l with
  | nil =>
    intro vis q vis2 q2 h
    rw [scanNbrs] at h
    simp only [Option.some.injEq, Prod.mk.injEq] at h
    obtain ⟨rfl, rfl⟩ := h
    exact ⟨Finset.Subset.refl _, by simp, ⟨[], by simp, by simp, fun x hx => Or.inl hx⟩, rfl⟩
  | cons w ws ih =>
    intro vis q vis2 q2 h
    rw [scanNbrs] at h
    by_cases hw : w ∈ vis
    · rw [if_pos hw] at h
      by_cases hp : (w : Int) = p
      · rw [if_pos hp] at h
        obtain ⟨h1, h2, ⟨news, h3, h4, h5⟩, h6⟩ := ih vis q vis2 q2 h
        refine ⟨h1, ?_, ⟨news, h3, h4, ?_⟩, h6⟩
        · intro x hx
          rcases List.mem_cons.mp hx with rfl | hx2
          · exact h1 hw
          · exact h2 x hx2
        · intro x hx
          rcases h5 x hx with h | ⟨r, hr, hrx, hrl⟩
          · exact Or.inl h
          · exact Or.inr ⟨r, hr, hrx, List.mem_cons_of_mem w hrl⟩
      · rw [if_neg hp] at h
        cases h
    · rw [if_neg hw] at h
      obtain ⟨h1, h2, ⟨news, h3, h4, h5⟩, h6⟩ := ih (insert w vis) (q ++ [(w, (v : Int))]) vis2 q2 h
      have hwv : w ∈ vis2 := h1 (Finset.mem_insert_self w vis)
      refine ⟨?_, ?_, ⟨(w, (v : Int)) :: news, ?_, ?_, ?_⟩, ?_⟩
      · exact fun x hx => h1 (Finset.mem_insert_of_mem hx)
      · intro x hx
        rcases List.mem_cons.mp hx with rfl | hx2
        · exact hwv
        · exact h2 x hx2
      · rw [h3, List.append_assoc]
        rfl
      · intro r hr
        rcases List.mem_cons.mp hr with rfl | hr2
        · exact hwv
        · exact h4 r hr2
      · intro x hx
        rcases h5 x hx with h | ⟨r, hr, hrx, hrl⟩
        · rcases Finset.mem_insert.mp h with rfl | h2
          · exact Or.inr ⟨(x, (v : Int)), List.mem_cons_self _ _, rfl, List.mem_cons_self x ws⟩
          · exact Or.inl h2
        · exact Or.inr ⟨r, List.mem_cons_of_mem _ hr, hrx, List.mem_cons_of_mem w hrl⟩
      · have h7 : (insert w vis).card = vis.card + 1 := Finset.card_insert_of_not_mem hw
        have h8 : (q ++ [(w, (v : Int))]).length = q.length + 1 := by simp
        omega

end GraphViz

namespace GraphViz

/-- Main BFS invariant: with sufficient fuel (strictly more than the
queue length plus the number of unvisited nodes of `S`), the loop never
runs out of fuel, and a normal termination count is the cardinality of a
visited set that contains the initial one, lies in `S`, is closed under
the adjacency, and consists of nodes reachable from `root`. -/
theorem bfsLoop_spec (adj : Adj) (S : Finset Nat) (root : Nat)
    (hadj : ∀ y x, x ∈ adj y → x ∈ S) :
    ∀ (fuel : Nat) (queue : List (Nat × Int)) (vis : Finset Nat) (count : Nat),
      (∀ r ∈ queue, r.1 ∈ vis) → vis ⊆ S →
      count + queue.length = vis.card →
      (∀ x ∈ vis, Relation.ReflTransGen (fun a b => b ∈ adj a) root x) →
      (∀ x ∈ vis, (∃ r ∈ queue, r.1 = x) ∨ ∀ y ∈ adj x, y ∈ vis) →
      queue.length + (S.card - vis.card) < fuel →
      bfsLoop adj fuel queue vis count ≠ .out ∧
      ∀ c, bfsLoop adj fuel queue vis count = .done c →
        ∃ vis2 : Finset Nat, vis ⊆ vis2 ∧ vis2 ⊆ S ∧ c = vis2.card ∧
          (∀ x ∈ vis2, Relation.ReflTransGen (fun a b => b ∈ adj a) root x) ∧
          (∀ x ∈ vis2, ∀ y ∈ adj x, y ∈ vis2) := by
  intro fuel
  induction fuel with
  | zero =>
    intro queue vis count _ _ _ _ _ hfuel
    omega
  | succ fuel ih =>
    intro queue vis count hq hS hcard hreach hclosed hfuel
    match hqm : queue with
    | [] =>
      refine ⟨by rw [bfsLoop]; simp, ?_⟩
      intro c hc
      rw [bfsLoop] at hc
      simp only [BfsRes.done.injEq] at hc
      subst hc
      refine ⟨vis, Finset.Subset.refl _, hS, by simpa using hcard, hreach, ?_⟩
      intro x hx y hy
      rcases hclosed x hx with ⟨r, hr, -⟩ | hcl
      · simp at hr
      · exact hcl y hy
    | (v, p) :: rest =>
      rw [bfsLoop]
      have hvvis : v ∈ vis := hq (v, p) (List.mem_cons_self _ _)
      cases hscan : scanNbrs v p (adj v) vis rest with
      | none => exact ⟨by simp, by intro c hc; simp at hc⟩
      | some vq =>
        obtain ⟨vis2, q2⟩ := vq
        obtain ⟨g1, g2, ⟨news, g3, g4, g5⟩, g6⟩ := scanNbrs_spec v p (adj v) vis rest vis2 q2 hscan
        have hvis2S : vis2 ⊆ S := by
          intro x hx
          rcases g5 x hx with h | ⟨r, -, rfl, hrl⟩
          · exact hS h
          · exact hadj v _ hrl
        have hvis2card : vis.card ≤ vis2.card := Finset.card_le_card g1
        have hvis2Scard : vis2.card ≤ S.card := Finset.card_le_card hvis2S
        have hlen : rest.length ≤ q2.length := by
          rw [g3]
          simp
        have hq2 : ∀ r ∈ q2, r.1 ∈ vis2 := by
          intro r hr
          rw [g3] at hr
          rcases List.mem_append.mp hr with h | h
          · exact g1 (hq r (List.mem_cons_of_mem _ h))
          · exact g4 r h
        have hcard2 : (count + 1) + q2.length = vis2.card := by
          simp only [List.length_cons] at hcard
          omega
        have hreach2 : ∀ x ∈ vis2, Relation.ReflTransGen (fun a b => b ∈ adj a) root x := by
          intro x hx
          rcases g5 x hx with h | ⟨r, -, rfl, hrl⟩
          · exact hreach x h
          · exact (hreach v hvvis).tail hrl
        have hclosed2 : ∀ x ∈ vis2, (∃ r ∈ q2, r.1 = x) ∨ ∀ y ∈ adj x, y ∈ vis2 := by
          intro x hx
          rcases g5 x hx with h | ⟨r, hr, rfl, hrl⟩
          · rcases hclosed x h with ⟨r2, hr2, hr2x⟩ | hcl
            · rcases List.mem_cons.mp hr2 with rfl | hr2m
              · subst hr2x
                exact Or.inr (fun y hy => g2 y hy)
              · exact Or.inl ⟨r2, by rw [g3]; exact List.mem_append_left _ hr2m, hr2x⟩
            · exact Or.inr (fun y hy => g1 (hcl y hy))
          · by_cases hxv : r.1 = v
            · rw [hxv]
              exact Or.inr (fun y hy => g2 y hy)
            · exact Or.inl ⟨r, by rw [g3]; exact List.mem_append_right _ hr, rfl⟩
        have hfuel2 : q2.length + (S.card - vis2.card) < fuel := by
          simp only [List.length_cons] at hfuel
          omega
        obtain ⟨ihout, ihdone⟩ := ih q2 vis2 (count + 1) hq2 hvis2S hcard2 hreach2 hclosed2 hfuel2
        dsimp only
        refine ⟨ihout, ?_⟩
        intro c hc
        obtain ⟨vis3, k1, k2, k3, k4, k5⟩ := ihdone c hc
        exact ⟨vis3, g1.trans k1, k2, k3, k4, k5⟩

end GraphViz

namespace GraphViz

/-- Claim C9 (amended): given root and all edge endpoints in range,
`validateTree` succeeds (returns the empty error) iff the node count is
within the tree variant's maximum of 20, the edge count is `n - 1`, the
BFS from the root detects no re-visit of a non-parent neighbour, and
every node of `1..n` is reachable from the root in the undirected
closure of the edges.  The claim as frozen omits the `n ≤ 20`
condition. -/
theorem validateTree_success_iff (n : Nat) (edges : List (Nat × Nat)) (root : Nat)
    (hroot : 1 ≤ root ∧ root ≤ n)
    (hedges : ∀ e ∈ edges, 1 ≤ e.1 ∧ e.1 ≤ n ∧ 1 ≤ e.2 ∧ e.2 ≤ n) :
    validateTree n edges root = "" ↔
      (n ≤ 20 ∧ edges.length = n - 1 ∧
        bfsLoop (undirAdj edges) (n + 1) [(root, -1)] {root} 0 ≠ .cycle ∧
        ∀ v, 1 ≤ v → v ≤ n → Relation.ReflTransGen (ustep edges) root v) := by
  have hadjU : ∀ y x, x ∈ undirAdj edges y → x ∈ Finset.Icc 1 n := by
    intro y x hx
    rcases (mem_undirAdj edges y x).mp hx with h | h
    · have h2 := hedges _ h
      rw [Finset.mem_Icc]
      exact ⟨h2.2.2.1, h2.2.2.2⟩
    · have h2 := hedges _ h
      rw [Finset.mem_Icc]
      exact ⟨h2.1, h2.2.1⟩
  have hstep : ∀ a b : Nat, ustep edges a b ↔ b ∈ undirAdj edges a := by
    intro a b
    rw [mem_undirAdj]
    exact Iff.rfl
  unfold validateTree
  rw [if_neg (by omega)]
  by_cases h20 : n > 20
  · rw [if_pos h20]
    constructor
    · intro hc; exact absurd hc (by decide)
    · rintro ⟨hle, -⟩; omega
  · rw [if_neg h20]
    by_cases hlen : edges.length ≠ n - 1
    · rw [if_pos hlen]
      constructor
      · intro hc
        exact absurd (congrArg (fun s => s.data.length) hc) (by simp)
      · rintro ⟨-, hl, -⟩; exact absurd hl hlen
    · rw [if_neg hlen]
      push_neg at hlen
      rw [if_neg (by
        simp only [List.any_eq_true, decide_eq_true_eq, not_exists, not_and]
        intro e he
        have h2 := hedges e he
        push_neg
        omega)]
      have hScard : (Finset.Icc 1 n).card = n := by
        rw [Nat.card_Icc]
        omega
      obtain ⟨hout, hdone⟩ := bfsLoop_spec (undirAdj edges) (Finset.Icc 1 n) root hadjU
        (n + 1) [(root, -1)] {root} 0
        (by intro r hr; simp at hr; simp [hr])
        (by intro x hx; simp at hx; subst hx; rw [Finset.mem_Icc]; omega)
        (by rw [Finset.card_singleton]; rfl)
        (by intro x hx; simp at hx; subst hx; exact Relation.ReflTransGen.refl)
        (by intro x hx; simp at hx; subst hx; exact Or.inl ⟨(x, -1), by simp⟩)
        (by simp only [List.length_singleton, Finset.card_singleton, hScard]; omega)
      cases hres : bfsLoop (undirAdj edges) (n + 1) [(root, -1)] {root} 0 with
      | out => exact absurd hres hout
      | cycle =>
        dsimp only
        constructor
        · intro hc; exact absurd hc (by decide)
        · rintro ⟨-, -, hnc, -⟩; exact (hnc rfl).elim
      | done c =>
        dsimp only
        obtain ⟨vis2, k1, k2, k3, k4, k5⟩ := hdone c hres
        have hiff : c = n ↔ ∀ v, 1 ≤ v → v ≤ n → Relation.ReflTransGen (ustep edges) root v := by
          constructor
          · intro hc v hv1 hv2
            have hveq : vis2 = Finset.Icc 1 n := by
              apply Finset.eq_of_subset_of_card_le k2
              rw [hScard, ← k3, hc]
            have hvmem : v ∈ vis2 := by
              rw [hveq, Finset.mem_Icc]
              omega
            exact (k4 v hvmem).mono (fun a b hab => (hstep a b).mpr hab)
          · intro hall
            have hsub : Finset.Icc 1 n ⊆ vis2 := by
              intro v hv
              rw [Finset.mem_Icc] at hv
              have hr2 : Relation.ReflTransGen (fun a b => b ∈ undirAdj edges a) root v :=
                (hall v hv.1 hv.2).mono (fun a b hab => (hstep a b).mp hab)
              clear hv
              induction hr2 with
              | refl => exact k1 (Finset.mem_singleton_self root)
              | tail hab hbc ih2 => exact k5 _ ih2 _ hbc
            rw [k3]
            have := Finset.card_le_card hsub
            have := Finset.card_le_card k2
            omega
        constructor
        · intro hc
          split at hc
          · exact absurd hc (by decide)
          · next hcn =>
            rw [not_not] at hcn
            exact ⟨by omega, hlen, (by intro hx; cases hx), hiff.mp hcn⟩
        · rintro ⟨-, -, -, hall⟩
          rw [if_neg (by push_neg; exact hiff.mpr hall)]

end GraphViz

namespace GraphViz

/-- Witness for `validateTree_success_iff` on the valid 3-node path
tree. -/
theorem validateTree_success_iff_witness :
    validateTree 3 [(1, 2), (2, 3)] 1 = "" ↔
      (3 ≤ 20 ∧ ([((1 : Nat), (2 : Nat)), (2, 3)]).length = 3 - 1 ∧
        bfsLoop (undirAdj [(1, 2), (2, 3)]) (3 + 1) [(1, -1)] {1} 0 ≠ .cycle ∧
        ∀ v, 1 ≤ v → v ≤ 3 → Relation.ReflTransGen (ustep [(1, 2), (2, 3)]) 1 v) :=
  validateTree_success_iff 3 [(1, 2), (2, 3)] 1 (by decide) (by decide)

/-- Every node of the 21-node path is reachable from node 1 in the
undirected closure. -/
theorem path21_reach : ∀ k : Nat, k ≤ 20 →
    Relation.ReflTransGen (ustep ((List.range' 1 20).map (fun i => (i, i + 1)))) 1 (k + 1) := by
  intro k
  induction k with
  | zero => intro _; exact Relation.ReflTransGen.refl
  | succ k ih =>
    intro hk
    refine (ih (by omega)).tail (Or.inl ?_)
    simp only [List.mem_map, List.mem_range'_1]
    exact ⟨k + 1, by omega, rfl⟩

/-- Claim C9 (counterexample): the 21-node path with root 1 satisfies
every condition of the claim — root and endpoints in range, exactly
`n - 1` edges, no BFS re-visit, every node reachable from the root —
yet `validateTree` rejects it, because of the `maxNodes = 20` check the
claim omits. -/
theorem validateTree_max_nodes_rejected :
    validateTree 21 ((List.range' 1 20).map (fun i => (i, i + 1))) 1 =
      "Number of nodes exceeds maximum limit of 20" ∧
    (1 ≤ 1 ∧ 1 ≤ 21) ∧
    (∀ e ∈ (List.range' 1 20).map (fun i => (i, i + 1)),
      1 ≤ e.1 ∧ e.1 ≤ 21 ∧ 1 ≤ e.2 ∧ e.2 ≤ 21) ∧
    ((List.range' 1 20).map (fun i => (i, i + 1))).length = 21 - 1 ∧
    bfsLoop (undirAdj ((List.range' 1 20).map (fun i => (i, i + 1)))) 22
      [(1, -1)] {1} 0 ≠ .cycle ∧
    ∀ v, 1 ≤ v → v ≤ 21 →
      Relation.ReflTransGen (ustep ((List.range' 1 20).map (fun i => (i, i + 1)))) 1 v := by
  refine ⟨by decide, by decide, by decide, by decide, by decide, ?_⟩
  intro v h1 h2
  have hv : v = (v - 1) + 1 := by omega
  rw [hv]
  exact path21_reach (v - 1) (by omega)

end GraphViz
